import Mathlib

/-!
Verification of the zisiny scheduling core: the working-day calendar
(src/utils/dateUtils.ts) and the hour-accumulation allocator
(src/utils/scheduler.ts, calculateSchedule).

Dates are modelled at day granularity as integer day numbers (days since
1970-01-01, which was a Thursday), matching the source's use of
startOfDay / isSameDay: every date comparison in the source is at day
granularity, so a Int value is embedded as its day number.  JS numbers
(efforts, hours) are modelled as rationals, with NaN and the two
infinities tracked explicitly where the source can meet them.
-/

namespace Zisiny

/-- date-fns addDays at day granularity. -/
def addDays (d : Int) (n : Int) : Int := d + n

/-- date-fns isSameDay: at day granularity, equality of day numbers. -/
def isSameDay (a b : Int) : Bool := a == b

/-- Day of week: day 0 (1970-01-01) was a Thursday, so
0 = Thu, 1 = Fri, 2 = Sat, 3 = Sun, 4 = Mon, 5 = Tue, 6 = Wed. -/
def dayOfWeek (d : Int) : Int := d.emod 7

/-- date-fns isSaturday on day numbers. -/
def isSaturday (d : Int) : Bool := dayOfWeek d == 2

/-- date-fns isSunday on day numbers. -/
def isSunday (d : Int) : Bool := dayOfWeek d == 3

/-- dateUtils.ts isWeekend. -/
def isWeekend (d : Int) : Bool := isSaturday d || isSunday d

/-- dateUtils.ts isHoliday: some holiday is the same day. -/
def isHoliday (d : Int) (holidays : List Int) : Bool :=
  holidays.any (fun holiday => isSameDay d holiday)

/-- dateUtils.ts isWorkingDay. -/
def isWorkingDay (d : Int) (holidays : List Int) (includeWeekends : Bool) : Bool :=
  if !includeWeekends && isWeekend d then false
  else if isHoliday d holidays then false
  else true

/-- The error conditions of the core.  The source throws Error with
distinct messages; `divergence` is not a thrown error: it marks inputs on
which the source's while-loop never terminates (see processTask and
rollChainF). -/
inductive SchedError where
  | invalidWorkHours
  | invalidStartDate
  | noWorkingDayFound
  | divergence
deriving DecidableEq, Repr

/-- dateUtils.ts MAX_ITERATIONS. -/
def MAX_ITERATIONS : Nat := 365

/-- The loop of getNextWorkingDay, parametrised by the number of failed
checks still allowed before the throw (MAX_ITERATIONS - iterations in the
source: the source throws once `iterations`, incremented after each failed
isWorkingDay check, reaches MAX_ITERATIONS). -/
def gnwdGo (holidays : List Int) (includeWeekends : Bool) :
    Nat → Int → Except SchedError Int
  | 0, _ => .error .noWorkingDayFound
  | n + 1, nextDate =>
    if isWorkingDay nextDate holidays includeWeekends then .ok nextDate
    else gnwdGo holidays includeWeekends n (addDays nextDate 1)

/-- dateUtils.ts getNextWorkingDay. -/
def getNextWorkingDay (date : Int) (holidays : List Int) (includeWeekends : Bool) :
    Except SchedError Int :=
  gnwdGo holidays includeWeekends MAX_ITERATIONS (addDays date 1)

instance {ε α : Type} [DecidableEq ε] [DecidableEq α] : DecidableEq (Except ε α) := fun x y =>
  match x, y with
  | .ok a, .ok b =>
    if h : a = b then .isTrue (by rw [h]) else .isFalse (by simp [h])
  | .error a, .error b =>
    if h : a = b then .isTrue (by rw [h]) else .isFalse (by simp [h])
  | .ok _, .error _ => .isFalse (by simp)
  | .error _, .ok _ => .isFalse (by simp)

/-- A JS number: finite (idealised as a rational), NaN, or an infinity. -/
inductive JSNumber where
  | fin (q : ℚ)
  | nan
  | posInf
  | negInf
deriving DecidableEq, Repr

/-- A raw field value of a task row, as the scheduler can meet it:
absent (undefined), a number, a string, or a Int (day granularity). -/
inductive JSVal where
  | undef
  | num (n : JSNumber)
  | str (s : String)
  | date (d : Int)
deriving DecidableEq, Repr

/-- JS Number() on strings, on the fragment this model exercises:
a string of decimal digits denotes its decimal value (the empty string
denotes 0, exactly as in JS); every other string of the model coerces to
NaN, as genuinely non-numeric strings do in JS.  (Signed, fractional,
exponent, hex and whitespace forms are outside the model.) -/
def strToNumber (s : String) : JSNumber :=
  if s.toList.all Char.isDigit then
    .fin ((s.toList.foldl (fun acc c => acc * 10 + (c.toNat - 48)) 0 : Nat) : ℚ)
  else .nan

/-- JS Number() coercion of a raw value.  Number(undefined) = NaN;
Number(aDate) is its millisecond timestamp (day number × 86400000 at day
granularity). -/
def toNumber : JSVal → JSNumber
  | .undef => .nan
  | .num n => n
  | .str s => strToNumber s
  | .date d => .fin (d * 86400000)

/-- JS (x || 0) on a number: NaN and ±0 are falsy and give 0. -/
def jsOrZero : JSNumber → JSNumber
  | .nan => .fin 0
  | .fin q => if q = 0 then .fin 0 else .fin q
  | .posInf => .posInf
  | .negInf => .negInf

/-- scheduler.ts: const effort = Number(task['Esfuerzo']) || 0. -/
def effortOf (v : JSVal) : JSNumber := jsOrZero (toNumber v)

/-- A task row: the 'Esfuerzo' field, the 'Fecha Inicio' / 'Fecha Fin'
fields (JSVal.undef when absent), and all remaining fields, which the
scheduler passes through untouched. -/
structure Task where
  esfuerzo : JSVal
  fechaInicio : JSVal
  fechaFin : JSVal
  others : List (String × JSVal)
deriving DecidableEq, Repr

/-- A JS Date value as the configuration can hold it: a valid calendar
date (day granularity) or an invalid date (NaN timestamp / non-Int). -/
inductive DateValue where
  | valid (d : Int)
  | invalid
deriving DecidableEq, Repr

/-- scheduler.ts SchedulerConfig. -/
structure SchedulerConfig where
  projectStartDate : DateValue
  holidays : List Int
  includeWeekends : Bool
  workHoursPerDay : ℚ

/-- The while-loop of calculateSchedule: while remainingEffort > 0, roll
the cursor to the next working day if the day is full, then bill
min(remainingEffort, availableHours).  Totalised by fuel; the fuel-0
result marks non-termination and is unreachable for the fuel budget
below whenever workHoursPerDay > 0. -/
def billLoopF (holidays : List Int) (includeWeekends : Bool) (w : ℚ) :
    Nat → ℚ → Int → ℚ → Except SchedError (Int × ℚ)
  | 0, _, _, _ => .error .divergence
  | fuel + 1, remainingEffort, currentDate, hoursUsedToday =>
    if remainingEffort > 0 then
      match (if hoursUsedToday ≥ w then
               (getNextWorkingDay currentDate holidays includeWeekends).map
                 (fun d => (d, (0 : ℚ)))
             else .ok (currentDate, hoursUsedToday)) with
      | .error e => .error e
      | .ok (cur, used) =>
        let availableHours := w - used
        let hoursToBill := min remainingEffort availableHours
        billLoopF holidays includeWeekends w fuel
          (remainingEffort - hoursToBill) cur (used + hoursToBill)
    else .ok (currentDate, hoursUsedToday)

/-- Fuel sufficient for billLoopF when 0 < w: the loop runs at most
1 + ⌈r/w⌉ iterations (every non-final iteration past the first bills a
full day), plus one final entry with remainingEffort ≤ 0. -/
def billFuel (w r : ℚ) : Nat := 2 + Nat.ceil (r / w)

/-- The while-loop of calculateSchedule at its call site. -/
def billLoop (holidays : List Int) (includeWeekends : Bool) (w : ℚ)
    (remainingEffort : ℚ) (currentDate : Int) (hoursUsedToday : ℚ) :
    Except SchedError (Int × ℚ) :=
  billLoopF holidays includeWeekends w (billFuel w remainingEffort)
    remainingEffort currentDate hoursUsedToday

/-- The while-loop on an infinite remainingEffort (Infinity - hoursToBill
stays Infinity, so the loop condition never falsifies): after the first
day fills, every further iteration rolls the cursor,
currentDate := getNextWorkingDay(...), and bills a full day.  The run
can therefore only end by getNextWorkingDay throwing NoWorkingDayFound.
Once every listed holiday lies at or before the cursor no future roll
can fail (a working day always exists within the next 7 days), so from
there the loop provably never ends: that is the divergence marker.
Fuel is one step per day up to the last holiday (chainFuel); past it the
escape test fires first, so fuel exhaustion (also divergence, and also a
correct answer there) is unreachable — see rollChainF_stable. -/
def rollChainF (holidays : List Int) (includeWeekends : Bool) : Nat → Int → SchedError
  | 0, _ => .divergence
  | n + 1, cur =>
    if holidays.all (fun h => decide (h ≤ cur)) then .divergence
    else
      match getNextWorkingDay cur holidays includeWeekends with
      | .error _ => .noWorkingDayFound
      | .ok d => rollChainF holidays includeWeekends n d

/-- Fuel for rollChainF: one step per day from the cursor to one past
the last holiday (every successful roll advances at least one day). -/
def chainFuel (holidays : List Int) (cur : Int) : Nat :=
  (holidays.foldr (fun h m => max h m) cur - cur).toNat + 1

/-- How the while-loop ends on an infinite remainingEffort, starting
from cursor day cur: NoWorkingDayFound when some roll of the chain
getNextWorkingDay(cur), getNextWorkingDay(getNextWorkingDay(cur)), ...
exhausts its 365-day search, divergence when no roll ever fails. -/
def rollChain (holidays : List Int) (includeWeekends : Bool) (cur : Int) : SchedError :=
  rollChainF holidays includeWeekends (chainFuel holidays cur) cur

/-- The zero-effort result: the task dated on the current cursor day. -/
def zeroEffortTask (t : Task) (cur : Int) : Task :=
  { t with fechaInicio := .date cur, fechaFin := .date cur }

/-- One step of calculateSchedule's tasks.map callback: allocate one task
from cursor state (cur, used), returning the dated task and the new
state.  The effortOf nan case cannot arise (effortOf never returns nan);
on a +Infinity effort the source's while-loop never returns normally:
it rolls the cursor day after day (rollChain), ending in a thrown
NoWorkingDayFound when a roll exhausts its 365-day search and never
ending otherwise (the divergence marker). -/
def processTask (holidays : List Int) (includeWeekends : Bool) (w : ℚ)
    (t : Task) (cur : Int) (used : ℚ) : Except SchedError (Task × Int × ℚ) :=
  match effortOf t.esfuerzo with
  | .nan => .ok (zeroEffortTask t cur, cur, used)
  | .negInf => .ok (zeroEffortTask t cur, cur, used)
  | .posInf => .error (rollChain holidays includeWeekends cur)
  | .fin q =>
    if q ≤ 0 then .ok (zeroEffortTask t cur, cur, used)
    else
      let taskStartDate := cur
      match billLoop holidays includeWeekends w q cur used with
      | .error e => .error e
      | .ok (cur2, used2) =>
        let taskEndDate := cur2
        match (if used2 ≥ w then
                 (getNextWorkingDay cur2 holidays includeWeekends).map
                   (fun d => (d, (0 : ℚ)))
               else .ok (cur2, used2)) with
        | .error e => .error e
        | .ok (cur3, used3) =>
          .ok ({ t with fechaInicio := .date taskStartDate,
                        fechaFin := .date taskEndDate }, cur3, used3)

/-- tasks.map with the mutable cursor threaded through: an exception in
any step aborts the whole run (no partial results). -/
def runTasks (holidays : List Int) (includeWeekends : Bool) (w : ℚ) :
    List Task → Int → ℚ → Except SchedError (List Task × Int × ℚ)
  | [], cur, used => .ok ([], cur, used)
  | t :: ts, cur, used =>
    match processTask holidays includeWeekends w t cur used with
    | .error e => .error e
    | .ok (o, cur1, used1) =>
      match runTasks holidays includeWeekends w ts cur1 used1 with
      | .error e => .error e
      | .ok (outs, cur2, used2) => .ok (o :: outs, cur2, used2)

/-- scheduler.ts calculateSchedule. -/
def calculateSchedule (tasks : List Task) (config : SchedulerConfig) :
    Except SchedError (List Task) :=
  if config.workHoursPerDay ≤ 0 then .error .invalidWorkHours
  else
    match config.projectStartDate with
    | .invalid => .error .invalidStartDate
    | .valid d0 =>
      match (if isWorkingDay d0 config.holidays config.includeWeekends then
               .ok (d0, (0 : ℚ))
             else
               (getNextWorkingDay d0 config.holidays config.includeWeekends).map
                 (fun d => (d, (0 : ℚ)))) with
      | .error e => .error e
      | .ok (cur, used) =>
        (runTasks config.holidays config.includeWeekends config.workHoursPerDay
          tasks cur used).map (fun r => r.1)

/-- Modelled from the spec: the deferred-roll allocation step.  It is the
eager-roll step of the source (processTask) with step 4 of spec §4.2
removed: after computing the task's end date the cursor is left on the
(possibly exactly full) day, and the roll happens only at the next task's
loop entry inside the while-loop. -/
def processTaskDeferred (holidays : List Int) (includeWeekends : Bool) (w : ℚ)
    (t : Task) (cur : Int) (used : ℚ) : Except SchedError (Task × Int × ℚ) :=
  match effortOf t.esfuerzo with
  | .nan => .ok (zeroEffortTask t cur, cur, used)
  | .negInf => .ok (zeroEffortTask t cur, cur, used)
  | .posInf => .error (rollChain holidays includeWeekends cur)
  | .fin q =>
    if q ≤ 0 then .ok (zeroEffortTask t cur, cur, used)
    else
      let taskStartDate := cur
      match billLoop holidays includeWeekends w q cur used with
      | .error e => .error e
      | .ok (cur2, used2) =>
        .ok ({ t with fechaInicio := .date taskStartDate,
                      fechaFin := .date cur2 }, cur2, used2)

/-- Modelled from the spec: the deferred-roll run over the task list. -/
def runTasksDeferred (holidays : List Int) (includeWeekends : Bool) (w : ℚ) :
    List Task → Int → ℚ → Except SchedError (List Task × Int × ℚ)
  | [], cur, used => .ok ([], cur, used)
  | t :: ts, cur, used =>
    match processTaskDeferred holidays includeWeekends w t cur used with
    | .error e => .error e
    | .ok (o, cur1, used1) =>
      match runTasksDeferred holidays includeWeekends w ts cur1 used1 with
      | .error e => .error e
      | .ok (outs, cur2, used2) => .ok (o :: outs, cur2, used2)

/-- Modelled from the spec: the deferred-roll variant of
calculateSchedule (spec §4.2 step 4, "Implementation variants may
instead defer this roll to the next task's loop entry"). -/
def calculateScheduleDeferred (tasks : List Task) (config : SchedulerConfig) :
    Except SchedError (List Task) :=
  if config.workHoursPerDay ≤ 0 then .error .invalidWorkHours
  else
    match config.projectStartDate with
    | .invalid => .error .invalidStartDate
    | .valid d0 =>
      match (if isWorkingDay d0 config.holidays config.includeWeekends then
               .ok (d0, (0 : ℚ))
             else
               (getNextWorkingDay d0 config.holidays config.includeWeekends).map
                 (fun d => (d, (0 : ℚ)))) with
      | .error e => .error e
      | .ok (cur, used) =>
        (runTasksDeferred config.holidays config.includeWeekends
          config.workHoursPerDay tasks cur used).map (fun r => r.1)

/-- The start day recorded in a task's 'Fecha Inicio', at day
granularity (0 when the field is not a date). -/
def startDay (t : Task) : Int :=
  match t.fechaInicio with
  | .date d => d
  | _ => 0

/-- The end day recorded in a task's 'Fecha Fin', at day granularity
(0 when the field is not a date). -/
def endDay (t : Task) : Int :=
  match t.fechaFin with
  | .date d => d
  | _ => 0

/-! ### Calendar lemmas -/

theorem gnwdGo_ok (holidays : List Int) (iw : Bool) :
    ∀ (n : Nat) (nd d' : Int), gnwdGo holidays iw n nd = Except.ok d' →
      nd ≤ d' ∧ d' < nd + (n : Int) ∧ isWorkingDay d' holidays iw = true ∧
      ∀ e : Int, nd ≤ e → e < d' → isWorkingDay e holidays iw = false := by
  intro n
  induction n with
  | zero => intro nd d' h; simp [gnwdGo] at h
  | succ n ih =>
    intro nd d' h
    by_cases hw : isWorkingDay nd holidays iw = true
    · simp [gnwdGo, hw] at h
      subst h
      refine ⟨le_refl _, by push_cast; omega, hw, ?_⟩
      intro e h1 h2
      exfalso; omega
    · simp [gnwdGo, hw] at h
      obtain ⟨h1, h2, h3, h4⟩ := ih (addDays nd 1) d' h
      simp only [addDays] at h1 h2 h4
      rw [Bool.not_eq_true] at hw
      refine ⟨by omega, by push_cast; omega, h3, ?_⟩
      intro e he1 he2
      rcases eq_or_lt_of_le he1 with rfl | hlt
      · exact hw
      · exact h4 e (by omega) he2

theorem gnwdGo_error (holidays : List Int) (iw : Bool) :
    ∀ (n : Nat) (nd : Int) (err : SchedError), gnwdGo holidays iw n nd = Except.error err →
      err = SchedError.noWorkingDayFound ∧
      ∀ x : Int, nd ≤ x → x < nd + (n : Int) → isWorkingDay x holidays iw = false := by
  intro n
  induction n with
  | zero =>
    intro nd err h
    simp [gnwdGo] at h
    exact ⟨h.symm, by intro x h1 h2; exfalso; omega⟩
  | succ n ih =>
    intro nd err h
    by_cases hw : isWorkingDay nd holidays iw = true
    · simp [gnwdGo, hw] at h
    · simp [gnwdGo, hw] at h
      obtain ⟨h1, h2⟩ := ih (addDays nd 1) err h
      simp only [addDays] at h2
      rw [Bool.not_eq_true] at hw
      refine ⟨h1, ?_⟩
      intro x hx1 hx2
      rcases eq_or_lt_of_le hx1 with rfl | hlt
      · exact hw
      · exact h2 x (by omega) (by push_cast at hx2; omega)

theorem gnwdGo_error_of_all (holidays : List Int) (iw : Bool) :
    ∀ (n : Nat) (nd : Int),
      (∀ x : Int, nd ≤ x → x < nd + (n : Int) → isWorkingDay x holidays iw = false) →
      gnwdGo holidays iw n nd = Except.error SchedError.noWorkingDayFound := by
  intro n
  induction n with
  | zero => intro nd _; simp [gnwdGo]
  | succ n ih =>
    intro nd hall
    have hw : isWorkingDay nd holidays iw = false :=
      hall nd (le_refl _) (by omega)
    simp [gnwdGo, hw, addDays]
    exact ih (nd + 1) (by intro x h1 h2; exact hall x (by omega) (by omega))

theorem getNextWorkingDay_ok (d : Int) (holidays : List Int) (iw : Bool) (d' : Int) :
    getNextWorkingDay d holidays iw = Except.ok d' →
      d < d' ∧ d' ≤ d + 365 ∧ isWorkingDay d' holidays iw = true ∧
      ∀ e : Int, d < e → e < d' → isWorkingDay e holidays iw = false := by
  intro h
  obtain ⟨h1, h2, h3, h4⟩ := gnwdGo_ok holidays iw MAX_ITERATIONS (addDays d 1) d' h
  simp only [addDays, MAX_ITERATIONS] at h1 h2 h4
  refine ⟨by omega, by omega, h3, ?_⟩
  intro e he1 he2
  exact h4 e (by omega) he2

theorem getNextWorkingDay_error (d : Int) (holidays : List Int) (iw : Bool) (err : SchedError) :
    getNextWorkingDay d holidays iw = Except.error err →
      err = SchedError.noWorkingDayFound ∧
      ∀ e : Int, d < e → e ≤ d + 365 → isWorkingDay e holidays iw = false := by
  intro h
  obtain ⟨h1, h2⟩ := gnwdGo_error holidays iw MAX_ITERATIONS (addDays d 1) err h
  simp only [addDays, MAX_ITERATIONS] at h2
  exact ⟨h1, by intro e he1 he2; exact h2 e (by omega) (by omega)⟩

theorem getNextWorkingDay_error_of_all (d : Int) (holidays : List Int) (iw : Bool) :
    (∀ e : Int, d < e → e ≤ d + 365 → isWorkingDay e holidays iw = false) →
      getNextWorkingDay d holidays iw = Except.error SchedError.noWorkingDayFound := by
  intro hall
  exact gnwdGo_error_of_all holidays iw MAX_ITERATIONS (addDays d 1)
    (by intro x h1 h2; simp only [addDays] at h1 h2; simp only [MAX_ITERATIONS] at h2
        exact hall x (by omega) (by omega))

theorem rollChainF_cases (holidays : List Int) (iw : Bool) :
    ∀ (n : Nat) (cur : Int),
      rollChainF holidays iw n cur = SchedError.noWorkingDayFound ∨
      rollChainF holidays iw n cur = SchedError.divergence := by
  intro n
  induction n with
  | zero => intro cur; exact Or.inr rfl
  | succ n ih =>
    intro cur
    rw [rollChainF]
    split
    · exact Or.inr rfl
    · cases hg : getNextWorkingDay cur holidays iw with
      | error e => exact Or.inl rfl
      | ok d => exact ih d

theorem rollChain_cases (holidays : List Int) (iw : Bool) (cur : Int) :
    rollChain holidays iw cur = SchedError.noWorkingDayFound ∨
    rollChain holidays iw cur = SchedError.divergence :=
  rollChainF_cases holidays iw (chainFuel holidays cur) cur

/-- If getNextWorkingDay fails, some listed holiday lies strictly ahead
of the cursor: among the 365 blocked days there is a non-weekend day,
and a non-weekend day can only be blocked by a holiday. -/
theorem gnwd_error_exists_holiday (cur : Int) (holidays : List Int) (iw : Bool)
    (e : SchedError) :
    getNextWorkingDay cur holidays iw = Except.error e →
    ∃ h ∈ holidays, cur < h := by
  intro hg
  obtain ⟨_, hall⟩ := getNextWorkingDay_error cur holidays iw e hg
  have hr1 : 0 ≤ (4 - (cur + 1)) % 7 := Int.emod_nonneg _ (by norm_num)
  have hr2 : (4 - (cur + 1)) % 7 < 7 := Int.emod_lt_of_pos _ (by norm_num)
  have hm4 : (cur + 1 + (4 - (cur + 1)) % 7) % 7 = 4 := by
    rw [Int.add_emod, Int.emod_emod_of_dvd _ dvd_rfl, ← Int.add_emod]
    have h4 : cur + 1 + (4 - (cur + 1)) = 4 := by ring
    rw [h4]
    decide
  have hmw : isWorkingDay (cur + 1 + (4 - (cur + 1)) % 7) holidays iw = false :=
    hall _ (by omega) (by omega)
  have hweek : isWeekend (cur + 1 + (4 - (cur + 1)) % 7) = false := by
    unfold isWeekend isSaturday isSunday dayOfWeek
    rw [show (cur + 1 + (4 - (cur + 1)) % 7).emod 7 = 4 from hm4]
    rfl
  have hhol : isHoliday (cur + 1 + (4 - (cur + 1)) % 7) holidays = true := by
    unfold isWorkingDay at hmw
    rw [hweek] at hmw
    simpa using hmw
  unfold isHoliday at hhol
  simp only [isSameDay, List.any_eq_true, beq_iff_eq] at hhol
  obtain ⟨h, hmem, hbe⟩ := hhol
  exact ⟨h, hmem, by omega⟩

/-- When the first roll of the chain already fails, the run fails with
NoWorkingDayFound. -/
theorem rollChain_error_step (holidays : List Int) (iw : Bool) (cur : Int)
    (e : SchedError) :
    getNextWorkingDay cur holidays iw = Except.error e →
    rollChain holidays iw cur = SchedError.noWorkingDayFound := by
  intro hg
  obtain ⟨h, hmem, hlt⟩ := gnwd_error_exists_holiday cur holidays iw e hg
  have hescape : holidays.all (fun x => decide (x ≤ cur)) = false := by
    simp only [List.all_eq_false, decide_eq_true_eq]
    exact ⟨h, hmem, by omega⟩
  unfold rollChain chainFuel
  simp only [rollChainF]
  rw [if_neg (by simp [hescape]), hg]

/-- When no listed holiday lies beyond the cursor, no future roll can
fail, so the loop never ends. -/
theorem rollChain_escape (holidays : List Int) (iw : Bool) (cur : Int) :
    holidays.all (fun h => decide (h ≤ cur)) = true →
    rollChain holidays iw cur = SchedError.divergence := by
  intro hall
  unfold rollChain chainFuel
  simp only [rollChainF]
  rw [if_pos hall]

theorem le_foldr_max : ∀ (l : List Int) (init : Int) (h : Int), h ∈ l →
    h ≤ l.foldr (fun a b => max a b) init := by
  intro l
  induction l with
  | nil => intro init h hm; exact absurd hm (List.not_mem_nil _)
  | cons a l ih =>
    intro init h hm
    rcases List.mem_cons.mp hm with rfl | hm2
    · exact le_max_left _ _
    · exact le_trans (ih init h hm2) (le_max_right _ _)

/-- Fuel stability: once the fuel covers every day up to the last
holiday, adding fuel does not change the chain's answer, so chainFuel's
exhaustion case is unreachable and the totalisation is canonical. -/
theorem rollChainF_stable (holidays : List Int) (iw : Bool) :
    ∀ (n : Nat) (cur : Int),
      (∀ h ∈ holidays, h < cur + (n : Int)) →
      ∀ (m : Nat), n ≤ m →
        rollChainF holidays iw n cur = rollChainF holidays iw m cur := by
  intro n
  induction n with
  | zero =>
    intro cur hb m _
    have hall : holidays.all (fun h => decide (h ≤ cur)) = true := by
      simp only [List.all_eq_true, decide_eq_true_eq]
      intro h hm
      have := hb h hm
      omega
    cases m with
    | zero => rfl
    | succ m =>
      simp only [rollChainF]
      rw [if_pos hall]
  | succ n ih =>
    intro cur hb m hnm
    obtain ⟨m2, rfl⟩ : ∃ m2, m = m2 + 1 := ⟨m - 1, by omega⟩
    simp only [rollChainF]
    by_cases hall : holidays.all (fun h => decide (h ≤ cur)) = true
    · rw [if_pos hall, if_pos hall]
    · rw [if_neg hall, if_neg hall]
      cases hg : getNextWorkingDay cur holidays iw with
      | error e => rfl
      | ok d =>
        have hd := (getNextWorkingDay_ok cur holidays iw d hg).1
        refine ih d ?_ m2 (by omega)
        intro h hm
        have := hb h hm
        push_cast at this ⊢
        omega

theorem rollChain_eq_rollChainF (holidays : List Int) (iw : Bool) (cur : Int) :
    ∀ (m : Nat), chainFuel holidays cur ≤ m →
      rollChain holidays iw cur = rollChainF holidays iw m cur := by
  intro m hm
  refine rollChainF_stable holidays iw (chainFuel holidays cur) cur ?_ m hm
  intro h hmem
  have hle : h ≤ holidays.foldr (fun a b => max a b) cur :=
    le_foldr_max holidays cur h hmem
  unfold chainFuel
  have := Int.self_le_toNat (holidays.foldr (fun a b => max a b) cur - cur)
  push_cast
  omega

/-- C3: getNextWorkingDay returns the first date strictly after its
argument for which isWorkingDay holds, that date is at most 365 days
ahead, and it fails — always with the NoWorkingDayFound condition —
exactly when none of the 365 dates date+1 .. date+365 is a working day. -/
theorem C3_getNextWorkingDay_spec : ∀ (d : Int) (holidays : List Int) (iw : Bool),
    (∀ d', getNextWorkingDay d holidays iw = Except.ok d' →
       d < d' ∧ d' ≤ d + 365 ∧ isWorkingDay d' holidays iw = true ∧
       ∀ e : Int, d < e → e < d' → isWorkingDay e holidays iw = false) ∧
    ((∃ err, getNextWorkingDay d holidays iw = Except.error err) ↔
       ∀ e : Int, d < e → e ≤ d + 365 → isWorkingDay e holidays iw = false) ∧
    (∀ err, getNextWorkingDay d holidays iw = Except.error err →
       err = SchedError.noWorkingDayFound) := by
  intro d holidays iw
  refine ⟨fun d' h => getNextWorkingDay_ok d holidays iw d' h, ⟨?_, ?_⟩, ?_⟩
  · rintro ⟨err, herr⟩
    exact (getNextWorkingDay_error d holidays iw err herr).2
  · intro hall
    exact ⟨SchedError.noWorkingDayFound, getNextWorkingDay_error_of_all d holidays iw hall⟩
  · intro err herr
    exact (getNextWorkingDay_error d holidays iw err herr).1

/-- C7: isWorkingDay is false exactly when (weekends are excluded and the
date is a Saturday or a Sunday) or the date matches a listed holiday at
day granularity; the holiday check applies even when weekends are
included, and every other date is a working day. -/
theorem C7_isWorkingDay_spec : ∀ (d : Int) (holidays : List Int) (iw : Bool),
    isWorkingDay d holidays iw =
      ((iw || (!isSaturday d && !isSunday d)) && !isHoliday d holidays) := by
  intro d holidays iw
  unfold isWorkingDay isWeekend
  cases iw <;> cases hsat : isSaturday d <;> cases hsun : isSunday d <;>
    cases hhol : isHoliday d holidays <;> simp [hsat, hsun, hhol]

/-! ### Allocator loop lemmas -/

theorem billLoopF_ok (holidays : List Int) (iw : Bool) (w : ℚ) :
    ∀ (fuel : Nat) (r : ℚ) (cur : Int) (used : ℚ) (cur2 : Int) (used2 : ℚ),
      billLoopF holidays iw w fuel r cur used = Except.ok (cur2, used2) →
      isWorkingDay cur holidays iw = true → 0 < w → 0 ≤ used → used ≤ w →
      cur ≤ cur2 ∧ isWorkingDay cur2 holidays iw = true ∧ 0 ≤ used2 ∧ used2 ≤ w := by
  intro fuel
  induction fuel with
  | zero => intro r cur used cur2 used2 h; simp [billLoopF] at h
  | succ fuel ih =>
    intro r cur used cur2 used2 h hcur hw hu0 huw
    by_cases hr : r > 0
    · simp only [billLoopF, if_pos hr] at h
      by_cases hfull : used ≥ w
      · rw [if_pos hfull] at h
        cases hg : getNextWorkingDay cur holidays iw with
        | error e => rw [hg] at h; simp [Except.map] at h
        | ok d =>
          rw [hg] at h; simp only [Except.map] at h
          obtain ⟨hd1, _, hd3, _⟩ := getNextWorkingDay_ok cur holidays iw d hg
          have hb1 : min r (w - 0) ≤ w - 0 := min_le_right _ _
          have hb2 : 0 < min r (w - 0) := lt_min hr (by linarith)
          obtain ⟨k1, k2, k3, k4⟩ := ih _ _ _ _ _ h hd3 hw (by linarith) (by linarith)
          exact ⟨by omega, k2, k3, k4⟩
      · rw [if_neg hfull] at h
        simp only [not_le] at hfull
        have hb1 : min r (w - used) ≤ w - used := min_le_right _ _
        have hb2 : 0 < min r (w - used) := lt_min hr (by linarith)
        obtain ⟨k1, k2, k3, k4⟩ := ih _ _ _ _ _ h hcur hw (by linarith) (by linarith)
        exact ⟨k1, k2, k3, k4⟩
    · simp only [billLoopF, if_neg hr] at h
      obtain ⟨rfl, rfl⟩ : cur = cur2 ∧ used = used2 := by
        simpa using h
      exact ⟨le_refl _, hcur, hu0, huw⟩

theorem billLoopF_error (holidays : List Int) (iw : Bool) (w : ℚ) :
    ∀ (fuel : Nat) (r : ℚ) (cur : Int) (used : ℚ) (e : SchedError),
      billLoopF holidays iw w fuel r cur used = Except.error e →
      e = SchedError.noWorkingDayFound ∨ e = SchedError.divergence := by
  intro fuel
  induction fuel with
  | zero =>
    intro r cur used e h
    simp [billLoopF] at h
    exact Or.inr h.symm
  | succ fuel ih =>
    intro r cur used e h
    by_cases hr : r > 0
    · simp only [billLoopF, if_pos hr] at h
      by_cases hfull : used ≥ w
      · rw [if_pos hfull] at h
        cases hg : getNextWorkingDay cur holidays iw with
        | error e2 =>
          rw [hg] at h; simp only [Except.map] at h
          obtain ⟨h1, _⟩ := getNextWorkingDay_error cur holidays iw e2 hg
          simp at h
          exact Or.inl (h.symm.trans h1)
        | ok d =>
          rw [hg] at h; simp only [Except.map] at h
          exact ih _ _ _ _ h
      · rw [if_neg hfull] at h
        exact ih _ _ _ _ h
    · simp only [billLoopF, if_neg hr] at h
      exact absurd h (by simp)

theorem processTask_ok_spec (holidays : List Int) (iw : Bool) (w : ℚ)
    (t : Task) (cur : Int) (used : ℚ) (o : Task) (cur3 : Int) (used3 : ℚ) :
    processTask holidays iw w t cur used = Except.ok (o, cur3, used3) →
    isWorkingDay cur holidays iw = true → 0 < w → 0 ≤ used → used ≤ w →
    o.esfuerzo = t.esfuerzo ∧ o.others = t.others ∧
    o.fechaInicio = JSVal.date cur ∧
    (∃ d2, o.fechaFin = JSVal.date d2 ∧ cur ≤ d2 ∧
       isWorkingDay d2 holidays iw = true ∧ d2 ≤ cur3) ∧
    cur ≤ cur3 ∧ isWorkingDay cur3 holidays iw = true ∧ 0 ≤ used3 ∧ used3 ≤ w := by
  intro h hcur hw hu0 huw
  unfold processTask at h
  split at h
  · obtain ⟨rfl, rfl, rfl⟩ : zeroEffortTask t cur = o ∧ cur = cur3 ∧ used = used3 := by
      simpa using h
    exact ⟨rfl, rfl, rfl, ⟨cur, rfl, le_refl _, hcur, le_refl _⟩, le_refl _, hcur, hu0, huw⟩
  · obtain ⟨rfl, rfl, rfl⟩ : zeroEffortTask t cur = o ∧ cur = cur3 ∧ used = used3 := by
      simpa using h
    exact ⟨rfl, rfl, rfl, ⟨cur, rfl, le_refl _, hcur, le_refl _⟩, le_refl _, hcur, hu0, huw⟩
  · simp at h
  · rename_i q heff
    by_cases hq : q ≤ 0
    · rw [if_pos hq] at h
      obtain ⟨rfl, rfl, rfl⟩ : zeroEffortTask t cur = o ∧ cur = cur3 ∧ used = used3 := by
        simpa using h
      exact ⟨rfl, rfl, rfl, ⟨cur, rfl, le_refl _, hcur, le_refl _⟩, le_refl _, hcur, hu0, huw⟩
    · rw [if_neg hq] at h
      split at h
      · simp at h
      · rename_i p cur2 used2 hb
        split at h
        · simp at h
        · rename_i p2 cur3s used3s hroll
          obtain ⟨rfl, rfl, rfl⟩ :
              ({ t with fechaInicio := JSVal.date cur,
                        fechaFin := JSVal.date cur2 } : Task) = o ∧
                cur3s = cur3 ∧ used3s = used3 := by
            simpa using h
          obtain ⟨k1, k2, k3, k4⟩ :=
            billLoopF_ok holidays iw w _ _ _ _ _ _ hb hcur hw hu0 huw
          by_cases hfull : used2 ≥ w
          · rw [if_pos hfull] at hroll
            cases hg : getNextWorkingDay cur2 holidays iw with
            | error e => rw [hg] at hroll; simp [Except.map] at hroll
            | ok d3 =>
              rw [hg] at hroll
              obtain ⟨rfl, rfl⟩ : d3 = cur3s ∧ (0 : ℚ) = used3s := by
                simpa [Except.map] using hroll
              obtain ⟨hg1, _, hg3, _⟩ := getNextWorkingDay_ok cur2 holidays iw d3 hg
              exact ⟨rfl, rfl, rfl, ⟨cur2, rfl, k1, k2, by omega⟩, by omega, hg3,
                le_refl _, le_of_lt hw⟩
          · rw [if_neg hfull] at hroll
            obtain ⟨rfl, rfl⟩ : cur2 = cur3s ∧ used2 = used3s := by
              simpa using hroll
            exact ⟨rfl, rfl, rfl, ⟨cur2, rfl, k1, k2, le_refl _⟩, k1, k2, k3, k4⟩

theorem processTask_error (holidays : List Int) (iw : Bool) (w : ℚ)
    (t : Task) (cur : Int) (used : ℚ) (e : SchedError) :
    processTask holidays iw w t cur used = Except.error e →
    e = SchedError.noWorkingDayFound ∨ e = SchedError.divergence := by
  intro h
  unfold processTask at h
  split at h
  · simp at h
  · simp at h
  · simp at h
    rcases rollChain_cases holidays iw cur with hc | hc
    · exact Or.inl (h.symm.trans hc)
    · exact Or.inr (h.symm.trans hc)
  · rename_i q heff
    by_cases hq : q ≤ 0
    · rw [if_pos hq] at h; simp at h
    · rw [if_neg hq] at h
      split at h
      · rename_i e2 hb
        obtain rfl : e2 = e := by simpa using h
        exact billLoopF_error holidays iw w _ _ _ _ _ hb
      · rename_i p cur2 used2 hb
        split at h
        · rename_i e2 hroll
          obtain rfl : e2 = e := by simpa using h
          by_cases hfull : used2 ≥ w
          · rw [if_pos hfull] at hroll
            cases hg : getNextWorkingDay cur2 holidays iw with
            | error e3 =>
              rw [hg] at hroll
              obtain rfl : e3 = e2 := by simpa [Except.map] using hroll
              exact Or.inl (getNextWorkingDay_error cur2 holidays iw _ hg).1
            | ok d3 => rw [hg] at hroll; simp [Except.map] at hroll
          · rw [if_neg hfull] at hroll; simp at hroll
        · simp at h

/-- Master invariant of the task fold: lengths, monotone cursor, dated
outputs on working days, pairwise ordering, and pass-through fields. -/
theorem runTasks_ok_spec (holidays : List Int) (iw : Bool) (w : ℚ) :
    ∀ (ts : List Task) (cur : Int) (used : ℚ) (outs : List Task) (curF : Int) (usedF : ℚ),
      runTasks holidays iw w ts cur used = Except.ok (outs, curF, usedF) →
      isWorkingDay cur holidays iw = true → 0 < w → 0 ≤ used → used ≤ w →
      outs.length = ts.length ∧
      cur ≤ curF ∧ isWorkingDay curF holidays iw = true ∧ 0 ≤ usedF ∧ usedF ≤ w ∧
      (∀ o ∈ outs,
        o.fechaInicio = JSVal.date (startDay o) ∧ o.fechaFin = JSVal.date (endDay o) ∧
        cur ≤ startDay o ∧ startDay o ≤ endDay o ∧ endDay o ≤ curF ∧
        isWorkingDay (startDay o) holidays iw = true ∧
        isWorkingDay (endDay o) holidays iw = true) ∧
      List.Pairwise (fun a b => endDay a ≤ startDay b) outs ∧
      (∀ (i : Nat) (h1 : i < ts.length) (h2 : i < outs.length),
        (outs.get ⟨i, h2⟩).esfuerzo = (ts.get ⟨i, h1⟩).esfuerzo ∧
        (outs.get ⟨i, h2⟩).others = (ts.get ⟨i, h1⟩).others) := by
  intro ts
  induction ts with
  | nil =>
    intro cur used outs curF usedF h hcur hw hu0 huw
    obtain ⟨rfl, rfl, rfl⟩ : ([] : List Task) = outs ∧ cur = curF ∧ used = usedF := by
      simpa [runTasks] using h
    refine ⟨rfl, le_refl _, hcur, hu0, huw, by simp, List.Pairwise.nil, ?_⟩
    intro i h1 h2
    exact absurd h1 (by simp)
  | cons t ts ih =>
    intro cur used outs curF usedF h hcur hw hu0 huw
    rw [runTasks] at h
    split at h
    · simp at h
    · rename_i p o cur1 used1 hp
      split at h
      · simp at h
      · rename_i p2 outs2 cur2 used2 hr
        obtain ⟨rfl, rfl, rfl⟩ : o :: outs2 = outs ∧ cur2 = curF ∧ used2 = usedF := by
          simpa using h
        obtain ⟨pe, po, pfi, ⟨d2, pff, pd1, pd2w, pd3⟩, pc1, pc2, pu1, pu2⟩ :=
          processTask_ok_spec holidays iw w t cur used o cur1 used1 hp hcur hw hu0 huw
        obtain ⟨il, ic1, ic2, iu1, iu2, ielems, ipw, iidx⟩ :=
          ih cur1 used1 outs2 cur2 used2 hr pc2 hw pu1 pu2
        have hs : startDay o = cur := by simp [startDay, pfi]
        have he : endDay o = d2 := by simp [endDay, pff]
        refine ⟨by simp [il], by omega, ic2, iu1, iu2, ?_, ?_, ?_⟩
        · intro x hx
          rcases List.mem_cons.mp hx with rfl | hx2
          · exact ⟨by rw [pfi, hs], by rw [pff, he], by omega,
              by omega, by omega, by rw [hs]; exact hcur, by rw [he]; exact pd2w⟩
          · obtain ⟨e1, e2, e3, e4, e5, e6, e7⟩ := ielems x hx2
            exact ⟨e1, e2, by omega, e4, e5, e6, e7⟩
        · refine List.Pairwise.cons ?_ ipw
          intro x hx2
          obtain ⟨_, _, e3, _, _, _, _⟩ := ielems x hx2
          omega
        · intro i h1 h2
          cases i with
          | zero => exact ⟨pe, po⟩
          | succ i =>
            simp only [List.get_cons_succ]
            exact iidx i (by simpa using h1) (by simpa using h2)

/-- A normal return of calculateSchedule factors through a validated
configuration, an initial cursor on a working day with zero hours used,
and a successful task fold. -/
theorem calculateSchedule_ok_elim (ts : List Task) (cfg : SchedulerConfig) (outs : List Task) :
    calculateSchedule ts cfg = Except.ok outs →
    ∃ (d0 cur curF : Int) (usedF : ℚ),
      0 < cfg.workHoursPerDay ∧
      cfg.projectStartDate = DateValue.valid d0 ∧
      (if isWorkingDay d0 cfg.holidays cfg.includeWeekends then Except.ok (d0, (0 : ℚ))
       else (getNextWorkingDay d0 cfg.holidays cfg.includeWeekends).map
         (fun d => (d, (0 : ℚ)))) = Except.ok (cur, (0 : ℚ)) ∧
      isWorkingDay cur cfg.holidays cfg.includeWeekends = true ∧
      runTasks cfg.holidays cfg.includeWeekends cfg.workHoursPerDay ts cur 0 =
        Except.ok (outs, curF, usedF) := by
  intro h
  unfold calculateSchedule at h
  split at h
  · simp at h
  · rename_i hw0
    split at h
    · simp at h
    · rename_i d0 hd0
      split at h
      · simp at h
      · rename_i p cur used hinit
        have hinit2 : isWorkingDay cur cfg.holidays cfg.includeWeekends = true ∧ used = 0 := by
          by_cases hwd : isWorkingDay d0 cfg.holidays cfg.includeWeekends = true
          · rw [if_pos hwd] at hinit
            obtain ⟨rfl, rfl⟩ : d0 = cur ∧ (0 : ℚ) = used := by simpa using hinit
            exact ⟨hwd, rfl⟩
          · rw [if_neg hwd] at hinit
            cases hg : getNextWorkingDay d0 cfg.holidays cfg.includeWeekends with
            | error e => rw [hg] at hinit; simp [Except.map] at hinit
            | ok dd =>
              rw [hg] at hinit
              obtain ⟨rfl, rfl⟩ : dd = cur ∧ (0 : ℚ) = used := by
                simpa [Except.map] using hinit
              exact ⟨(getNextWorkingDay_ok d0 _ _ dd hg).2.2.1, rfl⟩
        obtain ⟨hcurw, husedz⟩ := hinit2
        subst husedz
        cases hrun : runTasks cfg.holidays cfg.includeWeekends cfg.workHoursPerDay ts cur 0 with
        | error e => rw [hrun] at h; simp [Except.map] at h
        | ok trip =>
          obtain ⟨outs2, curF, usedF⟩ := trip
          rw [hrun] at h
          obtain rfl : outs2 = outs := by simpa [Except.map] using h
          exact ⟨d0, cur, curF, usedF, not_le.mp hw0, hd0, hinit, hcurw, hrun⟩

/-- C1: with positive work hours and a valid start date, every task of a
normal calculateSchedule return carries date-valued 'Fecha Inicio' and
'Fecha Fin' with start ≤ end at day granularity, and both days are
working days for the configuration's holidays and weekend flag. -/
theorem C1_outputs_dated_working (ts : List Task) (cfg : SchedulerConfig) (outs : List Task) :
    0 < cfg.workHoursPerDay → cfg.projectStartDate ≠ DateValue.invalid →
    calculateSchedule ts cfg = Except.ok outs →
    ∀ o ∈ outs, ∃ d1 d2 : Int,
      o.fechaInicio = JSVal.date d1 ∧ o.fechaFin = JSVal.date d2 ∧ d1 ≤ d2 ∧
      isWorkingDay d1 cfg.holidays cfg.includeWeekends = true ∧
      isWorkingDay d2 cfg.holidays cfg.includeWeekends = true := by
  intro hw _ h o ho
  obtain ⟨d0, cur, curF, usedF, hw2, hd0, hinit, hcurw, hrun⟩ := calculateSchedule_ok_elim ts cfg outs h
  obtain ⟨_, _, _, _, _, helems, _, _⟩ :=
    runTasks_ok_spec cfg.holidays cfg.includeWeekends cfg.workHoursPerDay
      ts cur 0 outs curF usedF hrun hcurw hw2 (le_refl _) (le_of_lt hw2)
  obtain ⟨e1, e2, _, e4, _, e6, e7⟩ := helems o ho
  exact ⟨startDay o, endDay o, e1, e2, e4, e6, e7⟩

/-- C2: on a normal return the cursor never moves backward: for i < j,
the i-th task's 'Fecha Fin' day is at most the j-th task's
'Fecha Inicio' day. -/
theorem C2_monotone_cursor (ts : List Task) (cfg : SchedulerConfig) (outs : List Task) :
    calculateSchedule ts cfg = Except.ok outs →
    ∀ (i j : Nat) (hi : i < outs.length) (hj : j < outs.length), i < j →
      endDay (outs.get ⟨i, hi⟩) ≤ startDay (outs.get ⟨j, hj⟩) := by
  intro h i j hi hj hij
  obtain ⟨d0, cur, curF, usedF, hw2, hd0, hinit, hcurw, hrun⟩ := calculateSchedule_ok_elim ts cfg outs h
  obtain ⟨_, _, _, _, _, _, hpw, _⟩ :=
    runTasks_ok_spec cfg.holidays cfg.includeWeekends cfg.workHoursPerDay
      ts cur 0 outs curF usedF hrun hcurw hw2 (le_refl _) (le_of_lt hw2)
  exact List.pairwise_iff_get.mp hpw ⟨i, hi⟩ ⟨j, hj⟩ hij

/-- C6: a normal return has the input's length, and every field of the
i-th input other than 'Fecha Inicio' / 'Fecha Fin' (its 'Esfuerzo' and
all pass-through fields) appears unchanged in the i-th output. -/
theorem C6_order_and_passthrough (ts : List Task) (cfg : SchedulerConfig) (outs : List Task) :
    calculateSchedule ts cfg = Except.ok outs →
    outs.length = ts.length ∧
    ∀ (i : Nat) (h1 : i < ts.length) (h2 : i < outs.length),
      (outs.get ⟨i, h2⟩).esfuerzo = (ts.get ⟨i, h1⟩).esfuerzo ∧
      (outs.get ⟨i, h2⟩).others = (ts.get ⟨i, h1⟩).others := by
  intro h
  obtain ⟨d0, cur, curF, usedF, hw2, hd0, hinit, hcurw, hrun⟩ := calculateSchedule_ok_elim ts cfg outs h
  obtain ⟨hlen, _, _, _, _, _, _, hidx⟩ :=
    runTasks_ok_spec cfg.holidays cfg.includeWeekends cfg.workHoursPerDay
      ts cur 0 outs curF usedF hrun hcurw hw2 (le_refl _) (le_of_lt hw2)
  exact ⟨hlen, hidx⟩

theorem runTasks_error (holidays : List Int) (iw : Bool) (w : ℚ) :
    ∀ (ts : List Task) (cur : Int) (used : ℚ) (e : SchedError),
      runTasks holidays iw w ts cur used = Except.error e →
      e = SchedError.noWorkingDayFound ∨ e = SchedError.divergence := by
  intro ts
  induction ts with
  | nil => intro cur used e h; simp [runTasks] at h
  | cons t ts ih =>
    intro cur used e h
    rw [runTasks] at h
    split at h
    · rename_i e2 hp
      obtain rfl : e2 = e := by simpa using h
      exact processTask_error holidays iw w t cur used _ hp
    · rename_i p o cur1 used1 hp
      split at h
      · rename_i e2 hr
        obtain rfl : e2 = e := by simpa using h
        exact ih cur1 used1 _ hr
      · simp at h

/-- C5: calculateSchedule fails with the work-hours InvalidConfiguration
error exactly when workHoursPerDay ≤ 0, and with the start-date
InvalidConfiguration error exactly when workHoursPerDay > 0 and the
project start date is invalid; both checks run before any task is
processed (the task list, empty included, plays no role), and no other
input produces these two failures. -/
theorem C5_validation_iff : ∀ (ts : List Task) (cfg : SchedulerConfig),
    (calculateSchedule ts cfg = Except.error SchedError.invalidWorkHours ↔
      cfg.workHoursPerDay ≤ 0) ∧
    (calculateSchedule ts cfg = Except.error SchedError.invalidStartDate ↔
      0 < cfg.workHoursPerDay ∧ cfg.projectStartDate = DateValue.invalid) := by
  intro ts cfg
  constructor
  · constructor
    · intro h
      by_contra hw0
      unfold calculateSchedule at h
      rw [if_neg hw0] at h
      split at h
      · simp at h
      · rename_i d0 hd0
        split at h
        · rename_i e2 hinit
          obtain rfl : e2 = SchedError.invalidWorkHours := by simpa using h
          by_cases hwd : isWorkingDay d0 cfg.holidays cfg.includeWeekends = true
          · rw [if_pos hwd] at hinit; simp at hinit
          · rw [if_neg hwd] at hinit
            cases hg : getNextWorkingDay d0 cfg.holidays cfg.includeWeekends with
            | error e3 =>
              rw [hg] at hinit
              obtain rfl : e3 = SchedError.invalidWorkHours := by
                simpa [Except.map] using hinit
              have := (getNextWorkingDay_error d0 _ _ _ hg).1
              simp at this
            | ok dd => rw [hg] at hinit; simp [Except.map] at hinit
        · rename_i p cur used hinit
          cases hrun : runTasks cfg.holidays cfg.includeWeekends cfg.workHoursPerDay ts cur used with
          | error e2 =>
            rw [hrun] at h
            obtain rfl : e2 = SchedError.invalidWorkHours := by
              simpa [Except.map] using h
            rcases runTasks_error cfg.holidays cfg.includeWeekends cfg.workHoursPerDay
              ts cur used _ hrun with h2 | h2 <;> simp at h2
          | ok trip => rw [hrun] at h; simp [Except.map] at h
    · intro hw0
      unfold calculateSchedule
      rw [if_pos hw0]
  · constructor
    · intro h
      unfold calculateSchedule at h
      split at h
      · rename_i hw0; simp at h
      · rename_i hw0
        refine ⟨not_le.mp hw0, ?_⟩
        split at h
        · rename_i hd0; exact hd0
        · rename_i d0 hd0
          split at h
          · rename_i e2 hinit
            obtain rfl : e2 = SchedError.invalidStartDate := by simpa using h
            by_cases hwd : isWorkingDay d0 cfg.holidays cfg.includeWeekends = true
            · rw [if_pos hwd] at hinit; simp at hinit
            · rw [if_neg hwd] at hinit
              cases hg : getNextWorkingDay d0 cfg.holidays cfg.includeWeekends with
              | error e3 =>
                rw [hg] at hinit
                obtain rfl : e3 = SchedError.invalidStartDate := by
                  simpa [Except.map] using hinit
                have := (getNextWorkingDay_error d0 _ _ _ hg).1
                simp at this
              | ok dd => rw [hg] at hinit; simp [Except.map] at hinit
          · rename_i p cur used hinit
            cases hrun : runTasks cfg.holidays cfg.includeWeekends cfg.workHoursPerDay ts cur used with
            | error e2 =>
              rw [hrun] at h
              obtain rfl : e2 = SchedError.invalidStartDate := by
                simpa [Except.map] using h
              rcases runTasks_error cfg.holidays cfg.includeWeekends cfg.workHoursPerDay
                ts cur used _ hrun with h2 | h2 <;> simp at h2
            | ok trip => rw [hrun] at h; simp [Except.map] at h
    · rintro ⟨hw, hd⟩
      unfold calculateSchedule
      rw [if_neg (not_le.mpr hw), hd]

/-! ### Insensitivity to pre-existing date fields -/

theorem processTask_congr (holidays : List Int) (iw : Bool) (w : ℚ)
    (t1 t2 : Task) (cur : Int) (used : ℚ)
    (he : t1.esfuerzo = t2.esfuerzo) (ho : t1.others = t2.others) :
    processTask holidays iw w t1 cur used = processTask holidays iw w t2 cur used := by
  obtain ⟨e1, fi1, ff1, o1⟩ := t1
  obtain ⟨e2, fi2, ff2, o2⟩ := t2
  have he2 : e1 = e2 := he
  have ho2 : o1 = o2 := ho
  subst he2
  subst ho2
  rfl

theorem runTasks_congr (holidays : List Int) (iw : Bool) (w : ℚ)
    (ts1 ts2 : List Task)
    (hf : List.Forall₂ (fun t1 t2 => t1.esfuerzo = t2.esfuerzo ∧ t1.others = t2.others) ts1 ts2) :
    ∀ (cur : Int) (used : ℚ),
      runTasks holidays iw w ts1 cur used = runTasks holidays iw w ts2 cur used := by
  induction hf with
  | nil => intro cur used; rfl
  | cons ha hl ih =>
    intro cur used
    rename_i a b l1 l2
    rw [runTasks, runTasks, processTask_congr holidays iw w a b cur used ha.1 ha.2]
    cases hp : processTask holidays iw w b cur used with
    | error e => rfl
    | ok p =>
      obtain ⟨o, cur1, used1⟩ := p
      simp only [ih]

/-- calculateSchedule after passing both validations. -/
theorem calculateSchedule_valid_unfold (ts : List Task) (cfg : SchedulerConfig) (d0 : Int)
    (hw0 : ¬ cfg.workHoursPerDay ≤ 0) (hd : cfg.projectStartDate = DateValue.valid d0) :
    calculateSchedule ts cfg =
      match (if isWorkingDay d0 cfg.holidays cfg.includeWeekends then
               Except.ok (d0, (0 : ℚ))
             else (getNextWorkingDay d0 cfg.holidays cfg.includeWeekends).map
               (fun d => (d, (0 : ℚ)))) with
      | .error e => .error e
      | .ok (cur, used) =>
        (runTasks cfg.holidays cfg.includeWeekends cfg.workHoursPerDay ts cur used).map
          (fun r => r.1) := by
  unfold calculateSchedule
  rw [if_neg hw0, hd]

/-- C9: calculateSchedule never lets a pre-existing 'Fecha Inicio' or
'Fecha Fin' survive: two runs whose inputs agree on every field except
those two produce identical results (so the computed dates are
independent of any incoming dates), and on a normal return both fields
of every output task hold freshly computed date values. -/
theorem C9_dates_overwritten : ∀ (ts1 ts2 : List Task) (cfg : SchedulerConfig),
    List.Forall₂ (fun t1 t2 => t1.esfuerzo = t2.esfuerzo ∧ t1.others = t2.others) ts1 ts2 →
    calculateSchedule ts1 cfg = calculateSchedule ts2 cfg ∧
    ∀ outs, calculateSchedule ts1 cfg = Except.ok outs →
      ∀ o ∈ outs, ∃ d1 d2 : Int,
        o.fechaInicio = JSVal.date d1 ∧ o.fechaFin = JSVal.date d2 := by
  intro ts1 ts2 cfg hf
  constructor
  · by_cases hw0 : cfg.workHoursPerDay ≤ 0
    · have h1 : calculateSchedule ts1 cfg = Except.error SchedError.invalidWorkHours := by
        unfold calculateSchedule; rw [if_pos hw0]
      have h2 : calculateSchedule ts2 cfg = Except.error SchedError.invalidWorkHours := by
        unfold calculateSchedule; rw [if_pos hw0]
      rw [h1, h2]
    · cases hsd : cfg.projectStartDate with
      | invalid =>
        have h1 : calculateSchedule ts1 cfg = Except.error SchedError.invalidStartDate := by
          unfold calculateSchedule; rw [if_neg hw0, hsd]
        have h2 : calculateSchedule ts2 cfg = Except.error SchedError.invalidStartDate := by
          unfold calculateSchedule; rw [if_neg hw0, hsd]
        rw [h1, h2]
      | valid d0 =>
        rw [calculateSchedule_valid_unfold ts1 cfg d0 hw0 hsd,
          calculateSchedule_valid_unfold ts2 cfg d0 hw0 hsd]
        cases hinit : (if isWorkingDay d0 cfg.holidays cfg.includeWeekends then
            Except.ok (d0, (0 : ℚ))
          else (getNextWorkingDay d0 cfg.holidays cfg.includeWeekends).map
            (fun d => (d, (0 : ℚ)))) with
        | error e => rfl
        | ok p =>
          obtain ⟨cur, used⟩ := p
          show (runTasks cfg.holidays cfg.includeWeekends cfg.workHoursPerDay
              ts1 cur used).map (fun r => r.1) =
            (runTasks cfg.holidays cfg.includeWeekends cfg.workHoursPerDay
              ts2 cur used).map (fun r => r.1)
          rw [runTasks_congr cfg.holidays cfg.includeWeekends cfg.workHoursPerDay
            ts1 ts2 hf cur used]
  · intro outs h o ho
    obtain ⟨d0, cur, curF, usedF, hw2, hd0, hinit, hcurw, hrun⟩ :=
      calculateSchedule_ok_elim ts1 cfg outs h
    obtain ⟨_, _, _, _, _, helems, _, _⟩ :=
      runTasks_ok_spec cfg.holidays cfg.includeWeekends cfg.workHoursPerDay
        ts1 cur 0 outs curF usedF hrun hcurw hw2 (le_refl _) (le_of_lt hw2)
    obtain ⟨e1, e2, _⟩ := helems o ho
    exact ⟨startDay o, endDay o, e1, e2⟩

/-! ### Concrete inputs for witnesses and counterexamples.
Day numbers: day 4 (≡ 4 mod 7) is a Monday, 5 a Tuesday, 6 a Wednesday,
9 a Saturday, 10 a Sunday. -/

/-- A bare task with the given 'Esfuerzo' raw value. -/
def taskOf (v : JSVal) : Task := ⟨v, JSVal.undef, JSVal.undef, []⟩

/-- Monday start (day 4), no holidays, weekends excluded, 8 h/day. -/
def demoCfg : SchedulerConfig := ⟨DateValue.valid 4, [], false, 8⟩

/-- The eager-roll outputs for efforts [8, 4] under demoCfg. -/
def demoOuts : List Task :=
  [⟨JSVal.num (JSNumber.fin 8), JSVal.date 4, JSVal.date 4, []⟩,
   ⟨JSVal.num (JSNumber.fin 4), JSVal.date 5, JSVal.date 5, []⟩]

unseal Rat.sub Rat.add Rat.mul Rat.inv in
theorem C1_witness : ∃ d1 d2 : Int,
    (⟨JSVal.num (JSNumber.fin 8), JSVal.date 4, JSVal.date 4, []⟩ : Task).fechaInicio =
        JSVal.date d1 ∧
      (⟨JSVal.num (JSNumber.fin 8), JSVal.date 4, JSVal.date 4, []⟩ : Task).fechaFin =
        JSVal.date d2 ∧ d1 ≤ d2 ∧
      isWorkingDay d1 demoCfg.holidays demoCfg.includeWeekends = true ∧
      isWorkingDay d2 demoCfg.holidays demoCfg.includeWeekends = true :=
  C1_outputs_dated_working
    [taskOf (JSVal.num (JSNumber.fin 8)), taskOf (JSVal.num (JSNumber.fin 4))]
    demoCfg demoOuts (by decide) (by decide) (by decide)
    ⟨JSVal.num (JSNumber.fin 8), JSVal.date 4, JSVal.date 4, []⟩ (by decide)

unseal Rat.sub Rat.add Rat.mul Rat.inv in
theorem C2_witness :
    endDay (demoOuts.get ⟨0, by decide⟩) ≤ startDay (demoOuts.get ⟨1, by decide⟩) :=
  C2_monotone_cursor
    [taskOf (JSVal.num (JSNumber.fin 8)), taskOf (JSVal.num (JSNumber.fin 4))]
    demoCfg demoOuts (by decide) 0 1 (by decide) (by decide) (by decide)

unseal Rat.sub Rat.add Rat.mul Rat.inv in
theorem C6_witness :
    demoOuts.length =
      [taskOf (JSVal.num (JSNumber.fin 8)), taskOf (JSVal.num (JSNumber.fin 4))].length ∧
    ∀ (i : Nat)
      (h1 : i < [taskOf (JSVal.num (JSNumber.fin 8)),
        taskOf (JSVal.num (JSNumber.fin 4))].length)
      (h2 : i < demoOuts.length),
      (demoOuts.get ⟨i, h2⟩).esfuerzo =
        ([taskOf (JSVal.num (JSNumber.fin 8)),
          taskOf (JSVal.num (JSNumber.fin 4))].get ⟨i, h1⟩).esfuerzo ∧
      (demoOuts.get ⟨i, h2⟩).others =
        ([taskOf (JSVal.num (JSNumber.fin 8)),
          taskOf (JSVal.num (JSNumber.fin 4))].get ⟨i, h1⟩).others :=
  C6_order_and_passthrough
    [taskOf (JSVal.num (JSNumber.fin 8)), taskOf (JSVal.num (JSNumber.fin 4))]
    demoCfg demoOuts (by decide)

unseal Rat.sub Rat.add Rat.mul Rat.inv in
theorem C9_witness :
    calculateSchedule [⟨JSVal.num (JSNumber.fin 8), JSVal.date 99, JSVal.str "x", []⟩]
        demoCfg =
      calculateSchedule [taskOf (JSVal.num (JSNumber.fin 8))] demoCfg :=
  (C9_dates_overwritten
    [⟨JSVal.num (JSNumber.fin 8), JSVal.date 99, JSVal.str "x", []⟩]
    [taskOf (JSVal.num (JSNumber.fin 8))] demoCfg
    (List.Forall₂.cons ⟨rfl, rfl⟩ List.Forall₂.nil)).1

/-! ### The effort coercion and the zero-effort branch -/

theorem processTask_eq_nanEff (holidays : List Int) (iw : Bool) (w : ℚ)
    (t : Task) (cur : Int) (used : ℚ)
    (heff : effortOf t.esfuerzo = JSNumber.nan) :
    processTask holidays iw w t cur used =
      Except.ok (zeroEffortTask t cur, cur, used) := by
  unfold processTask; rw [heff]

theorem processTask_eq_negInfEff (holidays : List Int) (iw : Bool) (w : ℚ)
    (t : Task) (cur : Int) (used : ℚ)
    (heff : effortOf t.esfuerzo = JSNumber.negInf) :
    processTask holidays iw w t cur used =
      Except.ok (zeroEffortTask t cur, cur, used) := by
  unfold processTask; rw [heff]

theorem processTask_eq_posInfEff (holidays : List Int) (iw : Bool) (w : ℚ)
    (t : Task) (cur : Int) (used : ℚ)
    (heff : effortOf t.esfuerzo = JSNumber.posInf) :
    processTask holidays iw w t cur used =
      Except.error (rollChain holidays iw cur) := by
  unfold processTask; rw [heff]

theorem processTask_eq_zeroEff (holidays : List Int) (iw : Bool) (w : ℚ)
    (t : Task) (cur : Int) (used : ℚ) (q : ℚ)
    (heff : effortOf t.esfuerzo = JSNumber.fin q) (hq : q ≤ 0) :
    processTask holidays iw w t cur used =
      Except.ok (zeroEffortTask t cur, cur, used) := by
  unfold processTask; rw [heff]; simp [hq]

theorem processTask_eq_pos (holidays : List Int) (iw : Bool) (w : ℚ)
    (t : Task) (cur : Int) (used : ℚ) (q : ℚ)
    (heff : effortOf t.esfuerzo = JSNumber.fin q) (hq : ¬ q ≤ 0) :
    processTask holidays iw w t cur used =
      match billLoop holidays iw w q cur used with
      | .error e => .error e
      | .ok (cur2, used2) =>
        match (if used2 ≥ w then
            (getNextWorkingDay cur2 holidays iw).map (fun d => (d, (0 : ℚ)))
          else Except.ok (cur2, used2)) with
        | .error e => .error e
        | .ok (cur3, used3) =>
          .ok ({ t with fechaInicio := JSVal.date cur,
                        fechaFin := JSVal.date cur2 }, cur3, used3) := by
  unfold processTask; rw [heff]; simp [hq]

theorem processTask_zeroBranch (holidays : List Int) (iw : Bool) (w : ℚ)
    (t : Task) (cur : Int) (used : ℚ) :
    (toNumber t.esfuerzo = JSNumber.nan ∨ toNumber t.esfuerzo = JSNumber.negInf ∨
      ∃ q, toNumber t.esfuerzo = JSNumber.fin q ∧ q ≤ 0) →
    processTask holidays iw w t cur used = Except.ok (zeroEffortTask t cur, cur, used) := by
  intro h
  unfold processTask
  rcases h with h | h | ⟨q, h, hq⟩
  · have he : effortOf t.esfuerzo = JSNumber.fin 0 := by simp [effortOf, h, jsOrZero]
    rw [he]; simp
  · have he : effortOf t.esfuerzo = JSNumber.negInf := by simp [effortOf, h, jsOrZero]
    rw [he]
  · by_cases h0 : q = 0
    · have he : effortOf t.esfuerzo = JSNumber.fin 0 := by
        simp [effortOf, h, jsOrZero, h0]
      rw [he]; simp
    · have he : effortOf t.esfuerzo = JSNumber.fin q := by
        simp [effortOf, h, jsOrZero, h0]
      rw [he]; simp [hq]

theorem processTask_posInf (holidays : List Int) (iw : Bool) (w : ℚ)
    (t : Task) (cur : Int) (used : ℚ) :
    toNumber t.esfuerzo = JSNumber.posInf →
    processTask holidays iw w t cur used =
      Except.error (rollChain holidays iw cur) := by
  intro h
  unfold processTask
  have he : effortOf t.esfuerzo = JSNumber.posInf := by simp [effortOf, h, jsOrZero]
  rw [he]

/-- C4 (amended): a task whose raw 'Esfuerzo' is missing, non-numeric
(its coercion is NaN), zero, negative, or negative infinity is treated
as zero effort: the allocation step returns normally with
'Fecha Inicio' = 'Fecha Fin' = the current cursor day and leaves the
cursor and hoursUsedToday untouched.  A positive-infinity effort is NOT
clamped and never returns normally: the while-loop rolls the cursor day
after day (rollChain), failing with NoWorkingDayFound once a roll
exhausts its 365-day search — in particular whenever the very first
roll fails — and running forever (the divergence marker) otherwise —
in particular whenever no listed holiday lies beyond the cursor. -/
theorem C4_invalid_effort_is_zero :
    ∀ (holidays : List Int) (iw : Bool) (w : ℚ) (t : Task) (cur : Int) (used : ℚ),
    ((toNumber t.esfuerzo = JSNumber.nan ∨ toNumber t.esfuerzo = JSNumber.negInf ∨
       ∃ q, toNumber t.esfuerzo = JSNumber.fin q ∧ q ≤ 0) →
      processTask holidays iw w t cur used =
        Except.ok ({ t with fechaInicio := JSVal.date cur, fechaFin := JSVal.date cur },
          cur, used)) ∧
    (toNumber t.esfuerzo = JSNumber.posInf →
      processTask holidays iw w t cur used =
        Except.error (rollChain holidays iw cur) ∧
      (rollChain holidays iw cur = SchedError.noWorkingDayFound ∨
        rollChain holidays iw cur = SchedError.divergence) ∧
      (∀ e, getNextWorkingDay cur holidays iw = Except.error e →
        rollChain holidays iw cur = SchedError.noWorkingDayFound) ∧
      (holidays.all (fun h => decide (h ≤ cur)) = true →
        rollChain holidays iw cur = SchedError.divergence)) :=
  fun holidays iw w t cur used =>
    ⟨fun h => processTask_zeroBranch holidays iw w t cur used h,
     fun h => ⟨processTask_posInf holidays iw w t cur used h,
       rollChain_cases holidays iw cur,
       fun e hg => rollChain_error_step holidays iw cur e hg,
       fun hall => rollChain_escape holidays iw cur hall⟩⟩

/-- Days 5 through 369: every day of the following year is a holiday. -/
def blockedHolidays : List Int :=
  (List.range 365).map (fun (i : Nat) => (5 : Int) + (i : Int))

/-- Monday start (day 4, itself still working) with the next 365 days
all holidays. -/
def cfgBlocked : SchedulerConfig := ⟨DateValue.valid 4, blockedHolidays, false, 8⟩

-- C4 counterexample: a task whose 'Esfuerzo' is +Infinity is not
-- treated as zero effort and the run does not terminate normally:
-- under demoCfg the source loops forever (Infinity - hoursToBill stays
-- Infinity; the model's divergence marker), and under a fully blocked
-- year it throws NoWorkingDayFound from inside the loop — in neither
-- case is the task dated on the cursor day as the claim states.
unseal Rat.sub Rat.add Rat.mul Rat.inv in
theorem C4_counterexample :
    calculateSchedule [taskOf (JSVal.num JSNumber.posInf)] demoCfg =
      Except.error SchedError.divergence ∧
    calculateSchedule [taskOf (JSVal.num JSNumber.posInf)] cfgBlocked =
      Except.error SchedError.noWorkingDayFound := by
  constructor
  · decide
  · have hmem : ∀ e : Int, 5 ≤ e → e ≤ 369 → e ∈ blockedHolidays := by
      intro e h1 h2
      simp only [blockedHolidays, List.mem_map, List.mem_range]
      exact ⟨(e - 5).toNat, by omega, by omega⟩
    have hhol : ∀ e : Int, 5 ≤ e → e ≤ 369 → isHoliday e blockedHolidays = true := by
      intro e h1 h2
      simp only [isHoliday, isSameDay, List.any_eq_true, beq_iff_eq]
      exact ⟨e, hmem e h1 h2, rfl⟩
    have hnw : ∀ e : Int, 4 < e → e ≤ 4 + 365 →
        isWorkingDay e blockedHolidays false = false := by
      intro e h1 h2
      unfold isWorkingDay
      rw [hhol e (by omega) (by omega)]
      simp
    have hgerr : getNextWorkingDay 4 blockedHolidays false =
        Except.error SchedError.noWorkingDayFound :=
      getNextWorkingDay_error_of_all 4 blockedHolidays false hnw
    have hchain : rollChain blockedHolidays false 4 = SchedError.noWorkingDayFound :=
      rollChain_error_step blockedHolidays false 4 _ hgerr
    have hpt : processTask blockedHolidays false 8
        (taskOf (JSVal.num JSNumber.posInf)) 4 0 =
        Except.error SchedError.noWorkingDayFound := by
      rw [processTask_eq_posInfEff blockedHolidays false 8
        (taskOf (JSVal.num JSNumber.posInf)) 4 0 rfl, hchain]
    have hrt : runTasks blockedHolidays false 8
        [taskOf (JSVal.num JSNumber.posInf)] 4 0 =
        Except.error SchedError.noWorkingDayFound := by
      rw [runTasks, hpt]
    have hh4 : isHoliday 4 blockedHolidays = false := by
      by_contra hc
      rw [Bool.not_eq_false] at hc
      simp only [isHoliday, isSameDay, List.any_eq_true, beq_iff_eq] at hc
      obtain ⟨x, hx, hxe⟩ := hc
      simp only [blockedHolidays, List.mem_map, List.mem_range] at hx
      obtain ⟨i, hi, hie⟩ := hx
      omega
    have hw4 : isWorkingDay 4 blockedHolidays false = true := by
      have hwk : isWeekend 4 = false := by decide
      unfold isWorkingDay
      rw [hh4, hwk]
      simp
    have hfin : calculateSchedule [taskOf (JSVal.num JSNumber.posInf)] cfgBlocked =
        (runTasks blockedHolidays false 8
          [taskOf (JSVal.num JSNumber.posInf)] 4 0).map (fun r => r.1) := by
      rw [calculateSchedule_valid_unfold _ cfgBlocked 4 (by norm_num [cfgBlocked]) rfl]
      simp only [cfgBlocked]
      rw [if_pos hw4]
    rw [hfin, hrt]
    rfl

theorem C4_witness :
    processTask [] false 8 (taskOf JSVal.undef) 4 0 =
      Except.ok (Task.mk JSVal.undef (JSVal.date 4) (JSVal.date 4) [], 4, 0) :=
  ((C4_invalid_effort_is_zero [] false 8 (taskOf JSVal.undef) 4 0).1 (Or.inl (by decide)))

theorem billLoopF_mono (holidays : List Int) (iw : Bool) (w : ℚ) :
    ∀ (fuel : Nat) (r : ℚ) (cur : Int) (used : ℚ) (cur2 : Int) (used2 : ℚ),
      billLoopF holidays iw w fuel r cur used = Except.ok (cur2, used2) → cur ≤ cur2 := by
  intro fuel
  induction fuel with
  | zero => intro r cur used cur2 used2 h; simp [billLoopF] at h
  | succ fuel ih =>
    intro r cur used cur2 used2 h
    by_cases hr : r > 0
    · simp only [billLoopF, if_pos hr] at h
      by_cases hfull : used ≥ w
      · rw [if_pos hfull] at h
        cases hg : getNextWorkingDay cur holidays iw with
        | error e => rw [hg] at h; simp [Except.map] at h
        | ok d =>
          rw [hg] at h; simp only [Except.map] at h
          have hd := (getNextWorkingDay_ok cur holidays iw d hg).1
          have := ih _ _ _ _ _ h
          omega
      · rw [if_neg hfull] at h
        exact ih _ _ _ _ _ h
    · simp only [billLoopF, if_neg hr] at h
      obtain ⟨rfl, rfl⟩ : cur = cur2 ∧ used = used2 := by simpa using h
      exact le_refl _

theorem billLoopF_progress (holidays : List Int) (iw : Bool) (w : ℚ) :
    ∀ (fuel : Nat) (r : ℚ) (cur : Int) (used : ℚ) (cur2 : Int) (used2 : ℚ),
      billLoopF holidays iw w fuel r cur used = Except.ok (cur2, used2) →
      0 < r → 0 < w →
      cur < cur2 ∨ (cur = cur2 ∧ used < used2) := by
  intro fuel
  induction fuel with
  | zero => intro r cur used cur2 used2 h; simp [billLoopF] at h
  | succ fuel ih =>
    intro r cur used cur2 used2 h hr hw
    simp only [billLoopF, if_pos hr] at h
    by_cases hfull : used ≥ w
    · rw [if_pos hfull] at h
      cases hg : getNextWorkingDay cur holidays iw with
      | error e => rw [hg] at h; simp [Except.map] at h
      | ok d =>
        rw [hg] at h; simp only [Except.map] at h
        have hd := (getNextWorkingDay_ok cur holidays iw d hg).1
        have := billLoopF_mono holidays iw w _ _ _ _ _ _ h
        left; omega
    · rw [if_neg hfull] at h
      have hb : 0 < min r (w - used) := lt_min hr (by simp only [not_le] at hfull; linarith)
      by_cases hr2 : r - min r (w - used) > 0
      · rcases ih _ _ _ _ _ h hr2 hw with h1 | ⟨h1, h2⟩
        · exact Or.inl h1
        · exact Or.inr ⟨h1, by linarith⟩
      · cases fuel with
        | zero => simp [billLoopF] at h
        | succ fuel2 =>
          simp only [billLoopF, if_neg hr2] at h
          obtain ⟨rfl, rfl⟩ : cur = cur2 ∧ used + min r (w - used) = used2 := by
            simpa using h
          exact Or.inr ⟨rfl, by linarith⟩

theorem processTask_not_zeroBranch (holidays : List Int) (iw : Bool) (w : ℚ)
    (t : Task) (cur : Int) (used : ℚ) (hw : 0 < w) :
    (toNumber t.esfuerzo = JSNumber.posInf ∨
      ∃ q, toNumber t.esfuerzo = JSNumber.fin q ∧ 0 < q) →
    processTask holidays iw w t cur used ≠
      Except.ok (zeroEffortTask t cur, cur, used) := by
  intro h heq
  rcases h with h | ⟨q, h, hq⟩
  · rw [processTask_posInf holidays iw w t cur used h] at heq
    simp at heq
  · have he : effortOf t.esfuerzo = JSNumber.fin q := by
      simp [effortOf, h, jsOrZero]
      intro h0; rw [h0] at hq; exact absurd hq (lt_irrefl 0)
    rw [processTask_eq_pos holidays iw w t cur used q he (not_le.mpr hq)] at heq
    split at heq
    · simp at heq
    · rename_i p cur2 used2 hb
      have hprog := billLoopF_progress holidays iw w _ _ _ _ _ _ hb hq hw
      split at heq
      · simp at heq
      · rename_i p2 cur3 used3 hroll
        obtain ⟨hteq, hc, hu⟩ :
            ({ t with fechaInicio := JSVal.date cur,
                      fechaFin := JSVal.date cur2 } : Task) = zeroEffortTask t cur ∧
              cur3 = cur ∧ used3 = used := by
          simpa using heq
        have hc2 : cur2 = cur := by
          have := congrArg Task.fechaFin hteq
          simpa [zeroEffortTask] using this
        by_cases hfull : used2 ≥ w
        · rw [if_pos hfull] at hroll
          cases hg : getNextWorkingDay cur2 holidays iw with
          | error e => rw [hg] at hroll; simp [Except.map] at hroll
          | ok d =>
            rw [hg] at hroll
            obtain ⟨hd3, _⟩ : d = cur3 ∧ (0 : ℚ) = used3 := by
              simpa [Except.map] using hroll
            have hd := (getNextWorkingDay_ok cur2 holidays iw _ hg).1
            omega
        · rw [if_neg hfull] at hroll
          obtain ⟨he1, he2⟩ : cur2 = cur3 ∧ used2 = used3 := by simpa using hroll
          rcases hprog with h1 | ⟨h1, h2⟩
          · omega
          · rw [he2, hu] at h2; exact absurd h2 (lt_irrefl _)

/-- The observable view of an allocation step: the two date fields it
wrote and the cursor state it hands to the next task. -/
def outView (r : Task × Int × ℚ) : (JSVal × JSVal) × Int × ℚ :=
  ((r.1.fechaInicio, r.1.fechaFin), r.2)

theorem processTask_view_congr (holidays : List Int) (iw : Bool) (w : ℚ)
    (t1 t2 : Task) (cur : Int) (used : ℚ)
    (h : effortOf t1.esfuerzo = effortOf t2.esfuerzo) :
    Except.map outView (processTask holidays iw w t1 cur used) =
      Except.map outView (processTask holidays iw w t2 cur used) := by
  cases heff : effortOf t1.esfuerzo with
  | nan =>
    rw [processTask_eq_nanEff holidays iw w t1 cur used heff,
      processTask_eq_nanEff holidays iw w t2 cur used (h ▸ heff)]
    simp [outView, zeroEffortTask, Except.map]
  | negInf =>
    rw [processTask_eq_negInfEff holidays iw w t1 cur used heff,
      processTask_eq_negInfEff holidays iw w t2 cur used (h ▸ heff)]
    simp [outView, zeroEffortTask, Except.map]
  | posInf =>
    rw [processTask_eq_posInfEff holidays iw w t1 cur used heff,
      processTask_eq_posInfEff holidays iw w t2 cur used (h ▸ heff)]
  | fin q =>
    by_cases hq : q ≤ 0
    · rw [processTask_eq_zeroEff holidays iw w t1 cur used q heff hq,
        processTask_eq_zeroEff holidays iw w t2 cur used q (h ▸ heff) hq]
      simp [outView, zeroEffortTask, Except.map]
    · rw [processTask_eq_pos holidays iw w t1 cur used q heff hq,
        processTask_eq_pos holidays iw w t2 cur used q (h ▸ heff) hq]
      cases hb : billLoop holidays iw w q cur used with
      | error e => rfl
      | ok p =>
        obtain ⟨cur2, used2⟩ := p
        show Except.map outView
            (match (if used2 ≥ w then
                (getNextWorkingDay cur2 holidays iw).map (fun d => (d, (0 : ℚ)))
              else Except.ok (cur2, used2)) with
            | .error e => .error e
            | .ok (cur3, used3) =>
              .ok ({ t1 with fechaInicio := JSVal.date cur,
                             fechaFin := JSVal.date cur2 }, cur3, used3)) =
          Except.map outView
            (match (if used2 ≥ w then
                (getNextWorkingDay cur2 holidays iw).map (fun d => (d, (0 : ℚ)))
              else Except.ok (cur2, used2)) with
            | .error e => .error e
            | .ok (cur3, used3) =>
              .ok ({ t2 with fechaInicio := JSVal.date cur,
                             fechaFin := JSVal.date cur2 }, cur3, used3))
        cases hroll : (if used2 ≥ w then
            (getNextWorkingDay cur2 holidays iw).map (fun d => (d, (0 : ℚ)))
          else Except.ok (cur2, used2)) with
        | error e => rfl
        | ok p2 =>
          obtain ⟨cur3, used3⟩ := p2
          simp [outView, Except.map]

/-- C10: a numeric-string 'Esfuerzo' such as "16" is coerced to its
numeric value and scheduled as that many hours: the allocation step
behaves, in everything observable (the dates written and the cursor
state), exactly as with the number 16; and the zero-effort branch is
taken precisely when the coercion yields NaN, 0, or a negative value
(negative infinity included). -/
theorem C10_numeric_string_coercion :
    ∀ (holidays : List Int) (iw : Bool) (w : ℚ) (t : Task) (cur : Int) (used : ℚ),
    effortOf (JSVal.str "16") = JSNumber.fin 16 ∧
    (t.esfuerzo = JSVal.str "16" →
      Except.map outView (processTask holidays iw w t cur used) =
        Except.map outView
          (processTask holidays iw w
            { t with esfuerzo := JSVal.num (JSNumber.fin 16) } cur used)) ∧
    (0 < w →
      (processTask holidays iw w t cur used =
          Except.ok (zeroEffortTask t cur, cur, used) ↔
        toNumber t.esfuerzo = JSNumber.nan ∨ toNumber t.esfuerzo = JSNumber.negInf ∨
          ∃ q, toNumber t.esfuerzo = JSNumber.fin q ∧ q ≤ 0)) := by
  intro holidays iw w t cur used
  refine ⟨by decide, fun hs => ?_, fun hw => ⟨fun heq => ?_, fun h => ?_⟩⟩
  · exact processTask_view_congr holidays iw w t
      { t with esfuerzo := JSVal.num (JSNumber.fin 16) } cur used (by rw [hs]; rfl)
  · by_contra hnot
    push_neg at hnot
    obtain ⟨h1, h2, h3⟩ := hnot
    have : toNumber t.esfuerzo = JSNumber.posInf ∨
        ∃ q, toNumber t.esfuerzo = JSNumber.fin q ∧ 0 < q := by
      cases hv : toNumber t.esfuerzo with
      | nan => exact absurd hv h1
      | negInf => exact absurd hv h2
      | posInf => exact Or.inl rfl
      | fin q => exact Or.inr ⟨q, rfl, h3 q hv⟩
    exact processTask_not_zeroBranch holidays iw w t cur used hw this heq
  · exact processTask_zeroBranch holidays iw w t cur used h

/-! ### Eager versus deferred rollover -/

theorem billLoopF_bounds (holidays : List Int) (iw : Bool) (w : ℚ) :
    ∀ (fuel : Nat) (r : ℚ) (cur : Int) (used : ℚ) (cur2 : Int) (used2 : ℚ),
      billLoopF holidays iw w fuel r cur used = Except.ok (cur2, used2) →
      0 < w → 0 ≤ used → used ≤ w → 0 ≤ used2 ∧ used2 ≤ w := by
  intro fuel
  induction fuel with
  | zero => intro r cur used cur2 used2 h; simp [billLoopF] at h
  | succ fuel ih =>
    intro r cur used cur2 used2 h hw hu0 huw
    by_cases hr : r > 0
    · simp only [billLoopF, if_pos hr] at h
      by_cases hfull : used ≥ w
      · rw [if_pos hfull] at h
        cases hg : getNextWorkingDay cur holidays iw with
        | error e => rw [hg] at h; simp [Except.map] at h
        | ok d =>
          rw [hg] at h; simp only [Except.map] at h
          have hb1 : min r (w - 0) ≤ w - 0 := min_le_right _ _
          have hb2 : 0 < min r (w - 0) := lt_min hr (by linarith)
          exact ih _ _ _ _ _ h hw (by linarith) (by linarith)
      · rw [if_neg hfull] at h
        simp only [not_le] at hfull
        have hb1 : min r (w - used) ≤ w - used := min_le_right _ _
        have hb2 : 0 < min r (w - used) := lt_min hr (by linarith)
        exact ih _ _ _ _ _ h hw (by linarith) (by linarith)
    · simp only [billLoopF, if_neg hr] at h
      obtain ⟨rfl, rfl⟩ : cur = cur2 ∧ used = used2 := by simpa using h
      exact ⟨hu0, huw⟩

/-- Starting the while-loop on an exactly full day is the same as
starting it on the already-rolled fresh day: the in-loop rollover fires
first and consumes no extra step. -/
theorem billLoopF_rolled (holidays : List Int) (iw : Bool) (w : ℚ) (hw : 0 < w)
    (dd de : Int) (hg : getNextWorkingDay dd holidays iw = Except.ok de) :
    ∀ (fuel : Nat) (r : ℚ), 0 < r →
      billLoopF holidays iw w fuel r dd w = billLoopF holidays iw w fuel r de 0 := by
  intro fuel r hr
  cases fuel with
  | zero => rfl
  | succ fuel =>
    simp only [billLoopF, if_pos hr]
    rw [if_pos (le_refl w), if_neg (not_le.mpr hw), hg]
    simp [Except.map]

/-- Modelled from the spec: the deferred-roll allocation step after the
positive-effort guard. -/
theorem processTaskDeferred_eq_pos (holidays : List Int) (iw : Bool) (w : ℚ)
    (t : Task) (cur : Int) (used : ℚ) (q : ℚ)
    (heff : effortOf t.esfuerzo = JSNumber.fin q) (hq : ¬ q ≤ 0) :
    processTaskDeferred holidays iw w t cur used =
      match billLoop holidays iw w q cur used with
      | .error e => .error e
      | .ok (cur2, used2) =>
        .ok ({ t with fechaInicio := JSVal.date cur,
                      fechaFin := JSVal.date cur2 }, cur2, used2) := by
  unfold processTaskDeferred; rw [heff]; simp [hq]

/-- The cursor-state correspondence between an eager-roll run and a
deferred-roll run: either the states agree, or the eager run has already
rolled off the exactly full day the deferred run still sits on. -/
def SRel (holidays : List Int) (iw : Bool) (w : ℚ) (sE sD : Int × ℚ) : Prop :=
  sE = sD ∨
    (sE.2 = 0 ∧ sD.2 = w ∧ getNextWorkingDay sD.1 holidays iw = Except.ok sE.1)

theorem processTask_equiv (holidays : List Int) (iw : Bool) (w : ℚ) (hw : 0 < w)
    (t : Task) (q : ℚ) (heff : effortOf t.esfuerzo = JSNumber.fin q) (hq : 0 < q)
    (cE : Int) (uE : ℚ) (cD : Int) (uD : ℚ)
    (hrel : SRel holidays iw w (cE, uE) (cD, uD))
    (hbE0 : 0 ≤ uE) (hbEw : uE ≤ w) (hbD0 : 0 ≤ uD) (hbDw : uD ≤ w)
    (oE oD : Task) (cE2 : Int) (uE2 : ℚ) (cD2 : Int) (uD2 : ℚ)
    (hE : processTask holidays iw w t cE uE = Except.ok (oE, cE2, uE2))
    (hD : processTaskDeferred holidays iw w t cD uD = Except.ok (oD, cD2, uD2)) :
    oE.fechaFin = oD.fechaFin ∧ SRel holidays iw w (cE2, uE2) (cD2, uD2) ∧
      0 ≤ uE2 ∧ uE2 ≤ w ∧ 0 ≤ uD2 ∧ uD2 ≤ w := by
  have hqn : ¬ q ≤ 0 := not_le.mpr hq
  rw [processTask_eq_pos holidays iw w t cE uE q heff hqn] at hE
  rw [processTaskDeferred_eq_pos holidays iw w t cD uD q heff hqn] at hD
  have hloops : billLoop holidays iw w q cD uD = billLoop holidays iw w q cE uE := by
    rcases hrel with heq | ⟨h0, hwD, hg⟩
    · obtain ⟨rfl, rfl⟩ : cE = cD ∧ uE = uD := by simpa [Prod.ext_iff] using heq
      rfl
    · have h0' : uE = 0 := h0
      have hwD' : uD = w := hwD
      have hg' : getNextWorkingDay cD holidays iw = Except.ok cE := hg
      rw [h0', hwD']
      unfold billLoop
      exact billLoopF_rolled holidays iw w hw cD cE hg' (billFuel w q) q hq
  rw [hloops] at hD
  split at hE
  · simp at hE
  · rename_i p cur2 used2 hbE
    split at hD
    · rename_i e hbD
      rw [hbE] at hbD; simp at hbD
    · rename_i p2 cur2d used2d hbD
      rw [hbE] at hbD
      obtain ⟨he1, he2⟩ : cur2 = cur2d ∧ used2 = used2d := by simpa using hbD
      subst he1; subst he2
      obtain ⟨rfl, rfl, rfl⟩ :
          ({ t with fechaInicio := JSVal.date cD,
                    fechaFin := JSVal.date cur2 } : Task) = oD ∧
            cur2 = cD2 ∧ used2 = uD2 := by
        simpa using hD
      have hbnds :=
        billLoopF_bounds holidays iw w _ _ _ _ _ _ hbE hw hbE0 hbEw
      split at hE
      · simp at hE
      · rename_i p3 cur3 used3 hroll
        obtain ⟨rfl, rfl, rfl⟩ :
            ({ t with fechaInicio := JSVal.date cE,
                      fechaFin := JSVal.date cur2 } : Task) = oE ∧
              cur3 = cE2 ∧ used3 = uE2 := by
          simpa using hE
        by_cases hfull : used2 ≥ w
        · rw [if_pos hfull] at hroll
          cases hg2 : getNextWorkingDay cur2 holidays iw with
          | error e => rw [hg2] at hroll; simp [Except.map] at hroll
          | ok d3 =>
            rw [hg2] at hroll
            obtain ⟨rfl, husd⟩ : d3 = cur3 ∧ (0 : ℚ) = used3 := by
              simpa [Except.map] using hroll
            refine ⟨rfl, Or.inr ⟨husd.symm, le_antisymm hbnds.2 hfull, hg2⟩, ?_, ?_, ?_, ?_⟩
            · rw [← husd]
            · rw [← husd]; exact le_of_lt hw
            · exact hbnds.1
            · exact hbnds.2
        · rw [if_neg hfull] at hroll
          obtain ⟨rfl, rfl⟩ : cur2 = cur3 ∧ used2 = used3 := by simpa using hroll
          exact ⟨rfl, Or.inl rfl, hbnds.1, hbnds.2, hbnds.1, hbnds.2⟩

theorem runTasks_equiv (holidays : List Int) (iw : Bool) (w : ℚ) (hw : 0 < w) :
    ∀ (ts : List Task),
      (∀ t ∈ ts, ∃ q, effortOf t.esfuerzo = JSNumber.fin q ∧ 0 < q) →
      ∀ (cE : Int) (uE : ℚ) (cD : Int) (uD : ℚ)
        (outsE : List Task) (cE2 : Int) (uE2 : ℚ)
        (outsD : List Task) (cD2 : Int) (uD2 : ℚ),
        SRel holidays iw w (cE, uE) (cD, uD) →
        0 ≤ uE → uE ≤ w → 0 ≤ uD → uD ≤ w →
        runTasks holidays iw w ts cE uE = Except.ok (outsE, cE2, uE2) →
        runTasksDeferred holidays iw w ts cD uD = Except.ok (outsD, cD2, uD2) →
        outsE.map Task.fechaFin = outsD.map Task.fechaFin := by
  intro ts
  induction ts with
  | nil =>
    intro _ cE uE cD uD outsE cE2 uE2 outsD cD2 uD2 _ _ _ _ _ hE hD
    obtain ⟨rfl, _, _⟩ : ([] : List Task) = outsE ∧ cE = cE2 ∧ uE = uE2 := by
      simpa [runTasks] using hE
    obtain ⟨rfl, _, _⟩ : ([] : List Task) = outsD ∧ cD = cD2 ∧ uD = uD2 := by
      simpa [runTasksDeferred] using hD
    rfl
  | cons t ts ih =>
    intro hall cE uE cD uD outsE cE2 uE2 outsD cD2 uD2 hrel h1 h2 h3 h4 hE hD
    obtain ⟨q, heff, hq⟩ := hall t (List.mem_cons_self t ts)
    rw [runTasks] at hE
    rw [runTasksDeferred] at hD
    split at hE
    · simp at hE
    · rename_i pE oE cE1 uE1 hpE
      split at hE
      · simp at hE
      · rename_i pE2 outsE1 cE1' uE1' hrE
        obtain ⟨rfl, _, _⟩ : oE :: outsE1 = outsE ∧ cE1' = cE2 ∧ uE1' = uE2 := by
          simpa using hE
        split at hD
        · simp at hD
        · rename_i pD oD cD1 uD1 hpD
          split at hD
          · simp at hD
          · rename_i pD2 outsD1 cD1' uD1' hrD
            obtain ⟨rfl, _, _⟩ : oD :: outsD1 = outsD ∧ cD1' = cD2 ∧ uD1' = uD2 := by
              simpa using hD
            obtain ⟨hff, hrel1, k1, k2, k3, k4⟩ :=
              processTask_equiv holidays iw w hw t q heff hq cE uE cD uD hrel
                h1 h2 h3 h4 oE oD cE1 uE1 cD1 uD1 hpE hpD
            have hrest := ih (fun x hx => hall x (List.mem_cons_of_mem t hx))
              cE1 uE1 cD1 uD1 outsE1 cE1' uE1' outsD1 cD1' uD1'
              hrel1 k1 k2 k3 k4 hrE hrD
            simp [List.map, hff, hrest]

theorem calculateScheduleDeferred_ok_elim (ts : List Task) (cfg : SchedulerConfig)
    (outs : List Task) :
    calculateScheduleDeferred ts cfg = Except.ok outs →
    ∃ (d0 cur curF : Int) (usedF : ℚ),
      0 < cfg.workHoursPerDay ∧
      cfg.projectStartDate = DateValue.valid d0 ∧
      (if isWorkingDay d0 cfg.holidays cfg.includeWeekends then Except.ok (d0, (0 : ℚ))
       else (getNextWorkingDay d0 cfg.holidays cfg.includeWeekends).map
         (fun d => (d, (0 : ℚ)))) = Except.ok (cur, (0 : ℚ)) ∧
      runTasksDeferred cfg.holidays cfg.includeWeekends cfg.workHoursPerDay ts cur 0 =
        Except.ok (outs, curF, usedF) := by
  intro h
  unfold calculateScheduleDeferred at h
  split at h
  · simp at h
  · rename_i hw0
    split at h
    · simp at h
    · rename_i d0 hd0
      split at h
      · simp at h
      · rename_i p cur used hinit
        have hinit2 : used = 0 := by
          by_cases hwd : isWorkingDay d0 cfg.holidays cfg.includeWeekends = true
          · rw [if_pos hwd] at hinit
            obtain ⟨_, rfl⟩ : d0 = cur ∧ (0 : ℚ) = used := by simpa using hinit
            rfl
          · rw [if_neg hwd] at hinit
            cases hg : getNextWorkingDay d0 cfg.holidays cfg.includeWeekends with
            | error e => rw [hg] at hinit; simp [Except.map] at hinit
            | ok dd =>
              rw [hg] at hinit
              obtain ⟨_, rfl⟩ : dd = cur ∧ (0 : ℚ) = used := by
                simpa [Except.map] using hinit
              rfl
        subst hinit2
        cases hrun : runTasksDeferred cfg.holidays cfg.includeWeekends
            cfg.workHoursPerDay ts cur 0 with
        | error e => rw [hrun] at h; simp [Except.map] at h
        | ok trip =>
          obtain ⟨outs2, curF, usedF⟩ := trip
          rw [hrun] at h
          obtain rfl : outs2 = outs := by simpa [Except.map] using h
          exact ⟨d0, cur, curF, usedF, not_le.mp hw0, hd0, hinit, hrun⟩

/-- C8 (amended): for task lists in which every coerced effort is a
positive finite number, whenever both the eager-roll allocator
(calculateSchedule, which rolls the cursor as soon as a day becomes
exactly full) and the deferred-roll variant (which rolls only at the
next task's loop entry) return normally, they produce identical
'Fecha Fin' for every task.  The original claim — identical
'Fecha Inicio' AND 'Fecha Fin' on every task list — fails: the deferred
variant captures a task's 'Fecha Inicio' before the pending roll, and a
zero-effort task is dated on the still-full day (see the
counterexample), so start dates and zero-effort task lists are excluded. -/
theorem C8_eager_deferred_fecha_fin :
    ∀ (ts : List Task) (cfg : SchedulerConfig) (outsE outsD : List Task),
    (∀ t ∈ ts, ∃ q, effortOf t.esfuerzo = JSNumber.fin q ∧ 0 < q) →
    calculateSchedule ts cfg = Except.ok outsE →
    calculateScheduleDeferred ts cfg = Except.ok outsD →
    outsE.map Task.fechaFin = outsD.map Task.fechaFin := by
  intro ts cfg outsE outsD hall hE hD
  obtain ⟨d0, cur, curF, usedF, hw, hd0, hinit, hcurw, hrun⟩ :=
    calculateSchedule_ok_elim ts cfg outsE hE
  obtain ⟨d0', cur', curF', usedF', _, hd0', hinit', hrun'⟩ :=
    calculateScheduleDeferred_ok_elim ts cfg outsD hD
  rw [hd0] at hd0'
  obtain rfl : d0 = d0' := by
    cases hd0'; rfl
  rw [hinit] at hinit'
  obtain rfl : cur = cur' := by
    have := hinit'
    simp at this
    exact this
  exact runTasks_equiv cfg.holidays cfg.includeWeekends cfg.workHoursPerDay hw
    ts hall cur 0 cur 0 outsE curF usedF outsD curF' usedF'
    (Or.inl rfl) (le_refl _) (le_of_lt hw) (le_refl _) (le_of_lt hw) hrun hrun'

/-- The deferred-roll outputs for efforts [8, 4] under demoCfg: task 2
starts on day 4, the already-full Monday, not the rolled Tuesday. -/
def demoOutsDeferred : List Task :=
  [⟨JSVal.num (JSNumber.fin 8), JSVal.date 4, JSVal.date 4, []⟩,
   ⟨JSVal.num (JSNumber.fin 4), JSVal.date 4, JSVal.date 5, []⟩]

-- C8 counterexample: with efforts [8, 4] the two variants disagree on
-- task 2's 'Fecha Inicio' (day 5 eager, day 4 deferred), and with
-- efforts [8, 8, 0] they even disagree on the 'Fecha Fin' lists
-- (eager [4, 5, 6], deferred [4, 5, 5]), so the claimed observational
-- equivalence on every task list fails.
unseal Rat.sub Rat.add Rat.mul Rat.inv in
theorem C8_counterexample :
    calculateSchedule
        [taskOf (JSVal.num (JSNumber.fin 8)), taskOf (JSVal.num (JSNumber.fin 4))]
        demoCfg ≠
      calculateScheduleDeferred
        [taskOf (JSVal.num (JSNumber.fin 8)), taskOf (JSVal.num (JSNumber.fin 4))]
        demoCfg ∧
    (calculateSchedule
        [taskOf (JSVal.num (JSNumber.fin 8)), taskOf (JSVal.num (JSNumber.fin 8)),
         taskOf (JSVal.num (JSNumber.fin 0))] demoCfg).map (List.map Task.fechaFin) ≠
      (calculateScheduleDeferred
        [taskOf (JSVal.num (JSNumber.fin 8)), taskOf (JSVal.num (JSNumber.fin 8)),
         taskOf (JSVal.num (JSNumber.fin 0))] demoCfg).map (List.map Task.fechaFin) := by
  constructor <;> decide

unseal Rat.sub Rat.add Rat.mul Rat.inv in
theorem C8_witness :
    demoOuts.map Task.fechaFin = demoOutsDeferred.map Task.fechaFin :=
  C8_eager_deferred_fecha_fin
    [taskOf (JSVal.num (JSNumber.fin 8)), taskOf (JSVal.num (JSNumber.fin 4))]
    demoCfg demoOuts demoOutsDeferred
    (by
      intro t ht
      simp [taskOf] at ht
      rcases ht with rfl | rfl
      · exact ⟨8, by decide, by decide⟩
      · exact ⟨4, by decide, by decide⟩)
    (by decide) (by decide)

end Zisiny
